import Mathlib

/-!
Shallow embedding of the scf-pdp solver core (Rust) in Lean 4.

Conventions used throughout this development:

* Rust `usize` values are modelled as `Nat`; arithmetic that can wrap in a
  release build (`overflow-checks = off`) is modelled with explicit
  wrap-around modulo `2 ^ 64` (`uadd` / `usub` below).
* Rust `f64` values are modelled as `ℚ`.  Every floating-point quantity the
  core computes is derived from integer distances and integer demands, so
  sums and products are exact; only the divisions in the Jain fairness index
  round in `f64`, and no claim depends on that rounding.
* The `Instance` carries the derived integer distance matrix directly
  (spec section 6: the core consumes "a distance function over node indices
  returning non-negative integer costs").  The float `hypot`/`ceil`
  computation that produces the matrix from coordinates, and all file I/O
  fields (such as the instance name), are outside the embedded core.
* Rust slice indexing `xs[i]` is modelled with `List.getD`; every theorem
  below only exercises in-range indices, matching the panic-free executions
  of the source.
-/

namespace SCFPDP

/-- The `usize` modulus: machine words are 64-bit. -/
def UW : Nat := 2 ^ 64

/-- Wrapping `usize` addition. -/
def uadd (a b : Nat) : Nat := (a + b) % UW

/-- Wrapping `usize` subtraction (two's-complement wrap-around). -/
def usub (a b : Nat) : Nat := (a + (UW - b % UW)) % UW

/-- Problem data as consumed by the solver core (mirrors `Instance` in
`instance.rs`; the name and the raw coordinates are only used by I/O, the
core reads the derived integer distance matrix). -/
structure Instance where
  nReqs : Nat
  nVehicles : Nat
  cap : Nat
  gamma : Nat
  rho : ℚ
  demands : List Nat
  distMatrix : List (List Nat)
  deriving DecidableEq, Repr

/-- Distance-matrix lookup `dist_matrix[u][v]`. -/
def Instance.dist (inst : Instance) (u v : Nat) : Nat :=
  (inst.distMatrix.getD u []).getD v 0

/-- A solution: an instance plus one stop sequence per vehicle
(`Solution` in `solution.rs`). -/
structure Solution where
  inst : Instance
  routes : List (List Nat)
  deriving DecidableEq, Repr

/-- `Solution::empty`: one empty route per vehicle. -/
def Solution.empty (inst : Instance) (numVehicles : Nat) : Solution :=
  ⟨inst, List.replicate numVehicles []⟩

/-- Sum of distances between consecutive stops
(the `for i in 0..route.len()-1` loop in `get_route_distances`). -/
def consecDist (inst : Instance) : List Nat → Nat
  | [] => 0
  | [_] => 0
  | a :: b :: rest => inst.dist a b + consecDist inst (b :: rest)

/-- Integer distance of one route, exactly as `get_route_distances` computes
it per route: depot to first stop (if not depot) + consecutive stops + last
stop back to depot (if not depot).  The Rust code accumulates these integer
matrix entries in `f64`; the values are integers, so we compute in `Nat`. -/
def routeDistNat (inst : Instance) (route : List Nat) : Nat :=
  match route with
  | [] => 0
  | a :: _ =>
    (if a ≠ 0 then inst.dist 0 a else 0) + consecDist inst route +
      (match route.getLast? with
       | some lastStop => if lastStop ≠ 0 then inst.dist lastStop 0 else 0
       | none => 0)

/-- `get_route_distances` (values as rationals, one per route). -/
def get_route_distances (sol : Solution) : List ℚ :=
  sol.routes.map (fun route => ((routeDistNat sol.inst route : Nat) : ℚ))

/-- `jain_fairness`: `(Σd)² / (k·Σd²)`, returning `1.0` when the sum of
squares is at most the numeric-safety epsilon `1e-12`. -/
def jain_fairness (sol : Solution) : ℚ :=
  let distances := get_route_distances sol
  let s := distances.sum
  let sumSq := (distances.map (fun d => d * d)).sum
  let k : ℚ := (distances.length : ℚ)
  if sumSq ≤ 1 / 1000000000000 then 1 else (s * s) / (k * sumSq)

/-- `objective_function_value = Σ route distances + rho · (1 − fairness)`. -/
def objective_function_value (sol : Solution) : ℚ :=
  (get_route_distances sol).sum + sol.inst.rho * (1 - jain_fairness sol)

/-- `total_travel_distance`. -/
def total_travel_distance (sol : Solution) : ℚ :=
  (get_route_distances sol).sum

/-! ### `Solution::is_valid`

The Rust function walks every route with a running `usize` load, a per-route
`picked_up` bitmap and a global `served_by` table, returning `false` early on
any violation and finally checking `served_count >= gamma`.  Early `return
false` is modelled with `Option`: `none` means a `return false` was taken. -/

/-- The mutable state of the `is_valid` walk. -/
structure VWalk where
  load : Nat
  pickedUp : List Bool
  servedBy : List (Option Nat)
  servedCount : Nat
  deriving DecidableEq, Repr

/-- One node of the `is_valid` walk (the body of `for &node in route`).
`none` models `return false`. -/
def validNode (inst : Instance) (vehicleId : Nat) (st : VWalk) (node : Nat) :
    Option VWalk :=
  if node = 0 then some st
  else if 1 ≤ node ∧ node ≤ inst.nReqs then
    let reqId := node - 1
    if (st.servedBy.getD reqId none).isSome then none
    else if inst.cap < uadd st.load (inst.demands.getD reqId 0) then none
    else some { st with
      load := uadd st.load (inst.demands.getD reqId 0)
      pickedUp := st.pickedUp.set reqId true
      servedBy := st.servedBy.set reqId (some vehicleId) }
  else if inst.nReqs < node ∧ node ≤ 2 * inst.nReqs then
    let reqId := node - inst.nReqs - 1
    if ¬ st.pickedUp.getD reqId false then none
    else if st.servedBy.getD reqId none ≠ some vehicleId then none
    else some { st with
      load := usub st.load (inst.demands.getD reqId 0)
      servedCount := st.servedCount + 1 }
  else some st

/-- The walk over one route. -/
def validRoute (inst : Instance) (vehicleId : Nat) :
    List Nat → VWalk → Option VWalk
  | [], st => some st
  | node :: rest, st =>
    match validNode inst vehicleId st node with
    | none => none
    | some st' => validRoute inst vehicleId rest st'

/-- The walk over all routes: load and `picked_up` reset per route,
`served_by`/`served_count` persist.  Returns the final state, or `none` if
some route triggered `return false` (including a non-zero final load). -/
def validRoutes (inst : Instance) :
    List (List Nat) → Nat → List (Option Nat) → Nat → Option (List (Option Nat) × Nat)
  | [], _, servedBy, servedCount => some (servedBy, servedCount)
  | route :: rest, vehicleId, servedBy, servedCount =>
    match validRoute inst vehicleId route
        ⟨0, List.replicate inst.nReqs false, servedBy, servedCount⟩ with
    | none => none
    | some st =>
      if st.load ≠ 0 then none
      else validRoutes inst rest (vehicleId + 1) st.servedBy st.servedCount

/-- `Solution::is_valid`. -/
def is_valid (sol : Solution) : Bool :=
  match validRoutes sol.inst sol.routes 0
      (List.replicate sol.inst.nReqs none) 0 with
  | none => false
  | some (_, servedCount) => sol.inst.gamma ≤ servedCount

/-- Number of distinct fully-served requests (pickup occurs, and the dropoff
occurs later in the same route).  This follows the words of the claim about
`is_valid`; it is the quantity `is_valid` is claimed to compare with gamma. -/
def distinctFullyServed (sol : Solution) : Nat :=
  ((List.range sol.inst.nReqs).filter (fun r =>
    sol.routes.any (fun route =>
      (List.range route.length).any (fun i =>
        decide (route.getD i 0 = r + 1) &&
          (route.drop (i + 1)).contains (sol.inst.nReqs + r + 1))))).length

/-! ### Local search (`local_search.rs`) -/

/-- The three move families. -/
inductive Neighborhood where
  | Relocate
  | Exchange
  | TwoOpt
  deriving DecidableEq, Repr

/-- Step rules. -/
inductive StepFunction where
  | FirstImprovement
  | BestImprovement
  deriving DecidableEq, Repr

/-- The only acceptance criterion. -/
inductive AcceptanceCriterion where
  | ImprovingOnly
  deriving DecidableEq, Repr

/-- `LocalSearchConfig` (the wall-clock `time_limit_seconds` field is carried
but, like real time itself, plays no role in the embedded step functions). -/
structure LocalSearchConfig where
  neighborhood : Neighborhood
  stepFunction : StepFunction
  acceptance : AcceptanceCriterion
  maxIterations : Nat
  maxNoImprovement : Nat
  timeLimitSeconds : Nat
  deriving DecidableEq, Repr

/-- Ascending insertion into a sorted list (insert after equal keys). -/
def insSorted (x : Nat) : List Nat → List Nat
  | [] => [x]
  | a :: l => if a ≤ x then a :: insSorted x l else x :: a :: l

/-- Ascending sort.  `Vec::sort` on `Nat` keys: the sorted permutation of a
list of naturals is unique, so any correct sort gives the same list. -/
def sortAsc (l : List Nat) : List Nat :=
  l.foldl (fun acc x => insSorted x acc) []

/-- Remove consecutive duplicates (`Vec::dedup`). -/
def dedupConsec {α : Type} [DecidableEq α] : List α → List α
  | [] => []
  | [a] => [a]
  | a :: b :: l => if a = b then dedupConsec (b :: l) else a :: dedupConsec (b :: l)

/-- `extract_requests_from_route`: ids of the pickup nodes on the route,
sorted and deduplicated. -/
def extract_requests_from_route (inst : Instance) (route : List Nat) : List Nat :=
  dedupConsec (sortAsc ((route.filter
    (fun node => decide (node ≠ 0) && decide (node ≤ inst.nReqs))).map (· - 1)))

/-- `remove_request_from_route`. -/
def remove_request_from_route (inst : Instance) (route : List Nat)
    (requestId : Nat) : List Nat :=
  route.filter (fun node =>
    decide (node ≠ requestId + 1) && decide (node ≠ requestId + 1 + inst.nReqs))

/-- `Vec::insert` at `pos` (callers keep `pos ≤ length`, where `Vec::insert`
cannot panic; beyond the length this total model appends). -/
def insertAt (pos : Nat) (x : Nat) (l : List Nat) : List Nat :=
  match pos, l with
  | 0, l => x :: l
  | _ + 1, [] => [x]
  | p + 1, a :: l => a :: insertAt p x l

/-- `check_route_capacity`: running wrapped load, `false` as soon as the load
exceeds capacity. -/
def check_route_capacity (inst : Instance) (route : List Nat) : Bool :=
  go 0 route
where
  go (load : Nat) : List Nat → Bool
  | [] => true
  | node :: rest =>
    if node = 0 then go load rest
    else
      let load' :=
        if node ≤ inst.nReqs then uadd load (inst.demands.getD (node - 1) 0)
        else if node ≤ 2 * inst.nReqs then
          usub load (inst.demands.getD (node - inst.nReqs - 1) 0)
        else load
      if inst.cap < load' then false else go load' rest

/-- `insert_request_into_route`: insert the pickup at `position`, then return
the route with the dropoff at the FIRST later position whose load profile
stays within capacity (`None` if no dropoff position fits). -/
def insert_request_into_route (inst : Instance) (route : List Nat)
    (requestId position : Nat) : Option (List Nat) :=
  let pickupNode := requestId + 1
  let dropoffNode := requestId + 1 + inst.nReqs
  let testRoute := insertAt position pickupNode route
  (List.range' (position + 1) (testRoute.length - position)).findSome?
    (fun dropoffPos =>
      let finalRoute := insertAt dropoffPos dropoffNode testRoute
      if check_route_capacity inst finalRoute then some finalRoute else none)

/-- `relocate_nh`: move one request from `v1` to `v2 ≠ v1`; candidates pass
through the full `is_valid` filter before being emitted. -/
def relocate_nh (inst : Instance) (current : Solution) : List Solution :=
  let nVehicles := current.routes.length
  (List.range nVehicles).flatMap (fun v1 =>
    (List.range nVehicles).flatMap (fun v2 =>
      if v1 = v2 then []
      else
        (extract_requests_from_route inst (current.routes.getD v1 [])).flatMap
          (fun req =>
            let routeV1Removed :=
              remove_request_from_route inst (current.routes.getD v1 []) req
            (List.range ((current.routes.getD v2 []).length + 1)).filterMap
              (fun insertPos =>
                match insert_request_into_route inst
                    (current.routes.getD v2 []) req insertPos with
                | none => none
                | some routeV2New =>
                  let newSol : Solution :=
                    ⟨current.inst,
                      (current.routes.set v1 routeV1Removed).set v2 routeV2New⟩
                  if is_valid newSol then some newSol else none))))

/-- `exchange_nh`: swap one request of `v1` with one of `v2` (`v1 < v2`),
trying every pair of reinsertion positions; `is_valid`-filtered. -/
def exchange_nh (inst : Instance) (current : Solution) : List Solution :=
  let nVehicles := current.routes.length
  (List.range nVehicles).flatMap (fun v1 =>
    (List.range' (v1 + 1) (nVehicles - (v1 + 1))).flatMap (fun v2 =>
      (extract_requests_from_route inst (current.routes.getD v1 [])).flatMap
        (fun req1 =>
          (extract_requests_from_route inst (current.routes.getD v2 [])).flatMap
            (fun req2 =>
              let r1Removed :=
                remove_request_from_route inst (current.routes.getD v1 []) req1
              let r2Removed :=
                remove_request_from_route inst (current.routes.getD v2 []) req2
              (List.range (r2Removed.length + 1)).flatMap (fun pos1 =>
                (List.range (r1Removed.length + 1)).filterMap (fun pos2 =>
                  match insert_request_into_route inst r1Removed req2 pos2,
                      insert_request_into_route inst r2Removed req1 pos1 with
                  | some routeV1New, some routeV2New =>
                    let newSol : Solution :=
                      ⟨current.inst,
                        (current.routes.set v1 routeV1New).set v2 routeV2New⟩
                    if is_valid newSol then some newSol else none
                  | _, _ => none))))))

/-- The reversed-segment route of `two_opt_nh`:
`route[0..i] ++ reverse(route[i..=j]) ++ route[j+1..]`. -/
def reverseSegment (route : List Nat) (i j : Nat) : List Nat :=
  route.take i ++ ((route.drop i).take (j + 1 - i)).reverse ++ route.drop (j + 1)

/-- `two_opt_nh`: for every route with at least 4 stops and every interior
cut pair `1 ≤ i < j ≤ len − 2`, the reversed-segment candidate — kept only
when the resulting solution passes `is_valid`. -/
def two_opt_nh (inst : Instance) (current : Solution) : List Solution :=
  (List.range current.routes.length).flatMap (fun v =>
    let route := current.routes.getD v []
    if route.length < 4 then []
    else
      (List.range' 1 (route.length - 3)).flatMap (fun i =>
        (List.range' (i + 1) (route.length - 1 - (i + 1))).filterMap (fun j =>
          let newSol : Solution :=
            ⟨current.inst, current.routes.set v (reverseSegment route i j)⟩
          if is_valid newSol then some newSol else none)))

/-- `generate_neighbors`. -/
def generate_neighbors (inst : Instance) (nh : Neighborhood)
    (current : Solution) : List Solution :=
  match nh with
  | .Relocate => relocate_nh inst current
  | .Exchange => exchange_nh inst current
  | .TwoOpt => two_opt_nh inst current

/-- `search_step`: first/best improvement over the generated neighbors. -/
def search_step (inst : Instance) (config : LocalSearchConfig)
    (current : Solution) : Option Solution :=
  let neighbors := generate_neighbors inst config.neighborhood current
  let currentObj := objective_function_value current
  match config.stepFunction with
  | .FirstImprovement =>
    neighbors.find? (fun nb => decide (objective_function_value nb < currentObj))
  | .BestImprovement =>
    (neighbors.foldl
      (fun acc nb =>
        if objective_function_value nb < acc.1
        then (objective_function_value nb, some nb) else acc)
      (currentObj, (none : Option Solution))).2

/-! ### Beam search (`beam_search.rs`) -/

/-- Per-request lifecycle state. -/
inductive ReqState where
  | Unserved
  | PickedUp
  | Delivered
  deriving DecidableEq, Repr

/-- The in-progress beam-search state (Rust `PartialSolution`; the shared
instance reference is passed separately). -/
structure PState where
  routes : List (List Nat)
  reqStates : List ReqState
  servedCount : Nat
  currentLoads : List Nat
  pickupVehicle : List (Option Nat)
  deriving DecidableEq, Repr

/-- `initial_state`: all routes empty, all requests unserved. -/
def initial_state (inst : Instance) : PState :=
  ⟨List.replicate inst.nVehicles [],
   List.replicate inst.nReqs .Unserved,
   0,
   List.replicate inst.nVehicles 0,
   List.replicate inst.nReqs none⟩

/-- `apply_pickup` (always `Some` in the source). -/
def apply_pickup (inst : Instance) (s : PState) (vehicleId reqId : Nat) : PState :=
  { s with
    routes := s.routes.set vehicleId ((s.routes.getD vehicleId []) ++ [1 + reqId])
    reqStates := s.reqStates.set reqId .PickedUp
    currentLoads := s.currentLoads.set vehicleId
      (uadd (s.currentLoads.getD vehicleId 0) (inst.demands.getD reqId 0))
    pickupVehicle := s.pickupVehicle.set reqId (some vehicleId) }

/-- `apply_dropoff` (always `Some` in the source). -/
def apply_dropoff (inst : Instance) (s : PState) (vehicleId reqId : Nat) : PState :=
  { s with
    routes := s.routes.set vehicleId
      ((s.routes.getD vehicleId []) ++ [1 + inst.nReqs + reqId])
    reqStates := s.reqStates.set reqId .Delivered
    currentLoads := s.currentLoads.set vehicleId
      (usub (s.currentLoads.getD vehicleId 0) (inst.demands.getD reqId 0))
    servedCount := s.servedCount + 1 }

/-- `apply_depot_return`. -/
def apply_depot_return (s : PState) (vehicleId : Nat) : PState :=
  { s with routes := s.routes.set vehicleId ((s.routes.getD vehicleId []) ++ [0]) }

/-- `generate_successors`: per vehicle, capacity-fitting pickups of unserved
requests, then dropoffs of requests this vehicle carries, then a depot
return only when the route is non-empty, not already at the depot, and the
vehicle has neither an affordable pickup nor a pending dropoff. -/
def generate_successors (inst : Instance) (s : PState) : List PState :=
  (List.range inst.nVehicles).flatMap (fun vehicleId =>
    let route := s.routes.getD vehicleId []
    let currentLoad := s.currentLoads.getD vehicleId 0
    let lastLoc := route.getLast?.getD 0
    let pickups := (List.range inst.nReqs).filterMap (fun reqId =>
      if s.reqStates.getD reqId .Unserved = .Unserved ∧
          uadd currentLoad (inst.demands.getD reqId 0) ≤ inst.cap
      then some (apply_pickup inst s vehicleId reqId) else none)
    let dropoffs := (List.range inst.nReqs).filterMap (fun reqId =>
      if s.reqStates.getD reqId .Unserved = .PickedUp ∧
          s.pickupVehicle.getD reqId none = some vehicleId
      then some (apply_dropoff inst s vehicleId reqId) else none)
    let hasFeasiblePickups := (List.range inst.nReqs).any (fun reqId =>
      decide (s.reqStates.getD reqId .Unserved = .Unserved) &&
        decide (uadd (s.currentLoads.getD vehicleId 0)
          (inst.demands.getD reqId 0) ≤ inst.cap))
    let hasPendingDropoffs := (List.range inst.nReqs).any (fun reqId =>
      decide (s.reqStates.getD reqId .Unserved = .PickedUp) &&
        decide (s.pickupVehicle.getD reqId none = some vehicleId))
    let depotReturns :=
      if route ≠ [] ∧ lastLoc ≠ 0 ∧ ¬ hasFeasiblePickups ∧ ¬ hasPendingDropoffs
      then [apply_depot_return s vehicleId] else []
    pickups ++ dropoffs ++ depotReturns)

/-- Jain fairness of a list of route distances, exactly as
`compute_jain_fairness` in `beam_search.rs` (plain `== 0.0` test, no
epsilon). -/
def compute_jain_fairness (distances : List ℚ) : ℚ :=
  let s := distances.sum
  let sumSq := (distances.map (fun d => d * d)).sum
  let k : ℚ := (distances.length : ℚ)
  if sumSq = 0 then 1 else (s * s) / (k * sumSq)

/-- `heuristic_score` (minimised): distance + fairness penalty + gamma
shortfall penalty + depot-visit penalty + short-route penalty. -/
def heuristic_score (inst : Instance) (s : PState) : ℚ :=
  let routeDistances := s.routes.map (fun r => ((routeDistNat inst r : Nat) : ℚ))
  let totalDistance := routeDistances.sum
  let fairness := compute_jain_fairness routeDistances
  let gammaPenalty : ℚ :=
    if s.servedCount < inst.gamma
    then ((inst.gamma - s.servedCount : Nat) : ℚ) * 10000 else 0
  let fairnessPenalty := inst.rho * (1 - fairness)
  let depotReturnPenalty : ℚ :=
    (s.routes.map (fun route => ((route.count 0 : Nat) : ℚ) * 500)).sum
  let routeEfficiencyPenalty : ℚ :=
    (s.routes.map (fun route =>
      let servedInRoute := (route.filter (fun loc => decide (inst.nReqs < loc))).length
      if servedInRoute < 2 ∧ route ≠ [] then (200 : ℚ) else 0)).sum
  totalDistance + fairnessPenalty + gammaPenalty + depotReturnPenalty +
    routeEfficiencyPenalty

/-- Stable insertion by a rational key (insert after equal keys). -/
def stableInsert {α : Type} (f : α → ℚ) (x : α) : List α → List α
  | [] => [x]
  | a :: l => if f a ≤ f x then a :: stableInsert f x l else x :: a :: l

/-- Stable ascending sort by a rational key.  The stable sorted permutation
of a list under a total order is unique, so this agrees with Rust's
`sort_by` (the `partial_cmp ... unwrap_or(Equal)` fallback never fires:
`ℚ` comparison is total, mirroring NaN-free `f64` scores). -/
def stableSortBy {α : Type} (f : α → ℚ) (l : List α) : List α :=
  l.foldl (fun acc x => stableInsert f x acc) []

/-- `select_best_states`: if at most `beam_width` states, return them
unchanged; otherwise sort by heuristic score, drop consecutive duplicates,
re-score, sort again and keep the first `beam_width`. -/
def select_best_states (inst : Instance) (beamWidth : Nat)
    (states : List PState) : List PState :=
  if states.length ≤ beamWidth then states
  else
    let sorted := stableSortBy (heuristic_score inst) states
    let deduped := dedupConsec sorted
    let scored := deduped.map (fun s => (heuristic_score inst s, s))
    let scoredSorted := stableSortBy Prod.fst scored
    (scoredSorted.take beamWidth).map Prod.snd

/-- `is_feasible`: no vehicle load above capacity, and every delivered
request has a recorded pickup vehicle. -/
def is_feasible (inst : Instance) (s : PState) : Bool :=
  s.currentLoads.all (fun load => decide (load ≤ inst.cap)) &&
    (List.range inst.nReqs).all (fun reqId =>
      !(decide (s.reqStates.getD reqId .Unserved = .Delivered) &&
        decide (s.pickupVehicle.getD reqId none = none)))

/-- `Iterator::min_by` on objective values: first minimum wins on ties. -/
def minByObjective (inst : Instance) : List PState → Option PState
  | [] => none
  | x :: xs => some (xs.foldl (fun acc y =>
      if objective_function_value ⟨inst, y.routes⟩ <
          objective_function_value ⟨inst, acc.routes⟩ then y else acc) x)

/-- `best_complete_solution`: among beam states meeting gamma and feasible,
the one of least objective value, as a `Solution`. -/
def best_complete_solution (inst : Instance) (beam : List PState) :
    Option Solution :=
  match minByObjective inst (beam.filter (fun s =>
      decide (inst.gamma ≤ s.servedCount) && is_feasible inst s)) with
  | none => none
  | some st => some ⟨inst, st.routes⟩

/-- `fallback_solution`: the canonical all-empty-routes solution. -/
def fallback_solution (inst : Instance) : Solution :=
  Solution.empty inst inst.nVehicles

/-- Whether a successor counts as complete for the beam partition. -/
def completePred (inst : Instance) (s : PState) : Bool :=
  decide (inst.gamma ≤ s.servedCount) && is_feasible inst s

/-- The `for depth in 0..max_depth` loop of `search`, with the remaining
depth budget as the (structural) recursion fuel; `0 < fuel` inside a step is
exactly the Rust `depth < max_depth - 1` test. -/
def searchGo (inst : Instance) (beamWidth : Nat) :
    Nat → List PState → List PState
  | 0, beam => beam
  | fuel + 1, beam =>
    if beam.isEmpty then beam
    else
      let allSuccessors := beam.flatMap (generate_successors inst)
      if allSuccessors.isEmpty then beam
      else
        let complete := allSuccessors.filter (completePred inst)
        let incomplete := allSuccessors.filter (fun s => !completePred inst s)
        if complete.isEmpty then
          searchGo inst beamWidth fuel (select_best_states inst beamWidth incomplete)
        else
          let b := select_best_states inst beamWidth complete
          if 0 < fuel then
            select_best_states inst beamWidth
              (b ++ b.flatMap (generate_successors inst))
          else b

/-- `BeamSearch::search`: run the bounded loop from the initial state and
return the best complete solution of the final beam, or the all-empty
fallback.  `maxDepth = none` models an unset `max_depth`
(`unwrap_or(n_reqs * 4)`). -/
def beam_search (inst : Instance) (beamWidth : Nat) (maxDepth : Option Nat) :
    Solution :=
  let md := maxDepth.getD (inst.nReqs * 4)
  let finalBeam := searchGo inst beamWidth md [initial_state inst]
  match best_complete_solution inst finalBeam with
  | some sol => sol
  | none => fallback_solution inst

/-- Beam selection as the SPEC describes it (for comparison with the code's
`select_best_states`): sort all successors by score ascending, remove exact
duplicates, keep the best `beam_width`. -/
def select_best_states_specified (inst : Instance) (beamWidth : Nat)
    (states : List PState) : List PState :=
  ((stableSortBy (heuristic_score inst) states).dedup).take beamWidth

/-! ### Simulated annealing (`sim_annealing.rs`)

The randomized parts are made explicit inputs: the initial randomized
construction is a `Solution` parameter, and each loop step consumes one
`(Nat × Bool)` draw — the `Nat` is the `gen_range` neighbor index (reduced
modulo the neighbor count) and the `Bool` is the outcome of the Metropolis
test `random < exp(−Δ/T)` for a non-improving neighbor (`exp` is
transcendental, so the comparison outcome itself is the modelled draw; an
improving neighbor has acceptance probability `1.0` and is always accepted,
as in the source).  The wall-clock budget and the logarithmic cooling
schedule (which needs `ln`) are outside the rational model; the outer
`while` loop carries an explicit fuel. -/

/-- Cooling schedules (`CoolingSchedule`), minus the logarithmic one. -/
inductive CoolingSchedule where
  | Geometric (alpha : ℚ)
  | Linear (beta : ℚ)
  | Exponential (alpha : ℚ)
  deriving DecidableEq, Repr

/-- `CoolingSchedule::update_temperature`. -/
def update_temperature (cs : CoolingSchedule) (currentTemp initialTemp : ℚ)
    (iteration : Nat) : ℚ :=
  match cs with
  | .Geometric alpha => currentTemp * alpha
  | .Linear beta => max (currentTemp - beta) 0
  | .Exponential alpha => initialTemp * alpha ^ iteration

/-- `SimulatedAnnealingConfig`. -/
structure SimulatedAnnealingConfig where
  initialTemperature : ℚ
  finalTemperature : ℚ
  coolingSchedule : CoolingSchedule
  maxIterations : Nat
  iterationsPerTemperature : Nat
  neighborhood : Neighborhood
  timeLimitSeconds : Nat
  biasedConstruction : Bool
  deriving DecidableEq, Repr

/-- The mutable state of `SimulatedAnnealing::solve`. -/
structure SAState where
  current : Solution
  bestSolution : Solution
  bestObj : ℚ
  temperature : ℚ
  iteration : Nat
  tempIteration : Nat
  deriving DecidableEq, Repr

/-- One body of the inner `for` loop (without the `iteration += 1` /
termination bookkeeping): draw a random neighbor and apply the acceptance
rule.  Faithfully reproduces the source's best-solution update, which
compares and stores the PRE-acceptance objective `current_obj`. -/
def sa_step (inst : Instance) (cfg : SimulatedAnnealingConfig)
    (st : SAState) (draws : List (Nat × Bool)) :
    SAState × List (Nat × Bool) :=
  let neighbors := generate_neighbors inst cfg.neighborhood st.current
  if neighbors.isEmpty then (st, draws)
  else
    let d := draws.headD (0, false)
    let neighbor := neighbors.getD (d.1 % neighbors.length) st.current
    let currentObj := objective_function_value st.current
    let neighborObj := objective_function_value neighbor
    let accept := if neighborObj < currentObj then true else d.2
    if accept then
      if currentObj < st.bestObj then
        ({ st with
            current := neighbor
            bestSolution := neighbor
            bestObj := currentObj }, draws.tail)
      else ({ st with current := neighbor }, draws.tail)
    else (st, draws.tail)

/-- The inner `for _ in 0..iterations_per_temperature` loop, with the
`iteration` counter and the mid-loop `max_iterations` break. -/
def sa_inner (inst : Instance) (cfg : SimulatedAnnealingConfig) :
    Nat → SAState → List (Nat × Bool) → SAState × List (Nat × Bool)
  | 0, st, draws => (st, draws)
  | k + 1, st, draws =>
    let (st', draws') := sa_step inst cfg st draws
    let st'' := { st' with iteration := st'.iteration + 1 }
    if cfg.maxIterations ≤ st''.iteration then (st'', draws')
    else sa_inner inst cfg k st'' draws'

/-- The outer `while temperature > final && iteration < max` loop (fuel is
the number of remaining temperature levels; the Rust loop need not
terminate when `iterations_per_temperature = 0` and the temperature never
drops, so the fuel bound is explicit). -/
def sa_outer (inst : Instance) (cfg : SimulatedAnnealingConfig) :
    Nat → SAState → List (Nat × Bool) → SAState
  | 0, st, _ => st
  | fuel + 1, st, draws =>
    if st.temperature ≤ cfg.finalTemperature ∨ cfg.maxIterations ≤ st.iteration
    then st
    else
      let (st', draws') := sa_inner inst cfg cfg.iterationsPerTemperature st draws
      let st'' := { st' with
        tempIteration := st'.tempIteration + 1
        temperature := update_temperature cfg.coolingSchedule st'.temperature
          cfg.initialTemperature (st'.tempIteration + 1) }
      sa_outer inst cfg fuel st'' draws'

/-- `SimulatedAnnealing::solve`, with the randomized initial construction
passed in as `init`: returns `best_solution` after the annealing loop. -/
def simulated_annealing_solve (inst : Instance)
    (cfg : SimulatedAnnealingConfig) (init : Solution)
    (draws : List (Nat × Bool)) (fuel : Nat) : Solution :=
  (sa_outer inst cfg fuel
    ⟨init, init, objective_function_value init, cfg.initialTemperature, 0, 0⟩
    draws).bestSolution

/-! ### Proof-support definitions -/

/-- Signed load change of one node: `+demand` at a pickup, `−demand` at a
dropoff, `0` at the depot or out-of-range nodes. -/
def nodeDelta (inst : Instance) (node : Nat) : Int :=
  if 1 ≤ node ∧ node ≤ inst.nReqs then (inst.demands.getD (node - 1) 0 : Int)
  else if inst.nReqs < node ∧ node ≤ 2 * inst.nReqs then
    -(inst.demands.getD (node - inst.nReqs - 1) 0 : Int)
  else 0

/-- Signed running load at the end of a route (sum of the node deltas). -/
def routeLoad (inst : Instance) (route : List Nat) : Int :=
  (route.map (nodeDelta inst)).sum

/-- A route's running load stays in `[0, cap]` at every prefix. -/
def LoadWithinCap (inst : Instance) (route : List Nat) : Prop :=
  ∀ k : Nat, 0 ≤ routeLoad inst (route.take k) ∧
    routeLoad inst (route.take k) ≤ (inst.cap : Int)

/-- Word-size bounds guaranteeing that the beam search's `usize` arithmetic
never wraps (capacity and every demand fit in 63 bits). -/
def DemandsBounded (inst : Instance) : Prop :=
  inst.cap < 2 ^ 63 ∧ ∀ d ∈ inst.demands, d < 2 ^ 63

/-- Total demand currently on board vehicle `v` (sum over requests in state
`PickedUp` whose pickup vehicle is `v`). -/
def pickedSum (inst : Instance) (s : PState) (v : Nat) : Nat :=
  ∑ r ∈ Finset.range inst.nReqs,
    if s.reqStates.getD r .Unserved = .PickedUp ∧
        s.pickupVehicle.getD r none = some v
    then inst.demands.getD r 0 else 0

/-- Beam-search states reachable from the initial state by generated
successors. -/
inductive Reachable (inst : Instance) : PState → Prop where
  | init : Reachable inst (initial_state inst)
  | step {s s' : PState} : Reachable inst s →
      s' ∈ generate_successors inst s → Reachable inst s'

/-- The beam-search state invariant: shapes match the instance, every
vehicle's tracked load equals the demand it carries and stays within
capacity, and each route's signed running load agrees with the tracked load
and stays within `[0, cap]` at every prefix. -/
def Inv (inst : Instance) (s : PState) : Prop :=
  s.routes.length = inst.nVehicles ∧
  s.currentLoads.length = inst.nVehicles ∧
  s.reqStates.length = inst.nReqs ∧
  s.pickupVehicle.length = inst.nReqs ∧
  (∀ v, s.currentLoads.getD v 0 = pickedSum inst s v) ∧
  (∀ v, s.currentLoads.getD v 0 ≤ inst.cap) ∧
  (∀ v, routeLoad inst (s.routes.getD v []) = (s.currentLoads.getD v 0 : Int)) ∧
  (∀ v, LoadWithinCap inst (s.routes.getD v []))

/-! ### Concrete fixtures used by the claim evaluations and witnesses

`instReloc` is realised by depot `(0,0)`, pickups `(1,0)`/`(5,0)` and
dropoffs `(1,0)`/`(5,0)` (all pairwise distances integral, so the `ceil`
is exact). -/

/-- Two requests with demands `[2,1]`, one vehicle, capacity `3`,
gamma `2`. -/
def instDouble : Instance := ⟨2, 1, 3, 2, 0, [2, 1], []⟩

/-- One request with demand `1`, one vehicle, capacity `5`, gamma `1`. -/
def instSingle : Instance := ⟨1, 1, 5, 1, 0, [1], []⟩

/-- Two requests with demands `[1,1]`, two vehicles, capacity `2`,
gamma `2`, distances from collinear points (see above). -/
def instReloc : Instance := ⟨2, 2, 2, 2, 0, [1, 1],
  [[0, 1, 5, 1, 5], [1, 0, 4, 0, 4], [5, 4, 0, 4, 0], [1, 0, 4, 0, 4],
   [5, 4, 0, 4, 0]]⟩

/-- The solution with each request on its own vehicle. -/
def curReloc : Solution := ⟨instReloc, [[1, 3], [2, 4]]⟩

/-- Two requests with demands `[1,1]`, ONE vehicle, capacity `1`,
gamma `2` (capacity too tight to carry both requests at once). -/
def instTight : Instance := ⟨2, 1, 1, 2, 0, [1, 1], []⟩

/-- One request with demand `5`, one vehicle, capacity `1`, gamma `1`:
no pickup ever fits, so beam search can never serve anything. -/
def instInfeasible : Instance :=
  ⟨1, 1, 1, 1, 0, [5], [[0, 1, 1], [1, 0, 1], [1, 1, 0]]⟩

/-- Two requests with demands `[1,1]`, one vehicle, capacity `2`,
gamma `2` (both requests can be carried simultaneously). -/
def instWide : Instance := ⟨2, 1, 2, 2, 0, [1, 1], []⟩

/-- An annealing configuration doing exactly one Relocate step. -/
def cfgOneStep : SimulatedAnnealingConfig :=
  ⟨1000, 1 / 10, .Geometric (19 / 20), 1, 1, .Relocate, 300, true⟩

/-- A best-improvement Relocate local-search configuration. -/
def cfgBestReloc : LocalSearchConfig :=
  ⟨.Relocate, .BestImprovement, .ImprovingOnly, 1000, 100, 60⟩

/-! ## Lemmas -/

theorem uadd_eq_add {a b : Nat} (ha : a < 2 ^ 63) (hb : b < 2 ^ 63) :
    uadd a b = a + b := by
  unfold uadd UW
  omega

theorem usub_eq_sub {a b : Nat} (hba : b ≤ a) (ha : a < UW) :
    usub a b = a - b := by
  unfold usub UW at *
  omega

theorem get_route_distances_eq_cast_sum (sol : Solution) :
    (get_route_distances sol).sum =
      ((sol.routes.map (routeDistNat sol.inst)).sum : ℚ) := by
  unfold get_route_distances
  suffices h : ∀ l : List (List Nat),
      (l.map (fun r => ((routeDistNat sol.inst r : Nat) : ℚ))).sum =
        ((l.map (routeDistNat sol.inst)).sum : ℚ) from h sol.routes
  intro l
  induction l with
  | nil => simp
  | cons a t ih => simp [ih]

/-- With a zero fairness weight the objective is just the (integer) total
distance, so concrete objective values can be computed in `Nat`. -/
theorem objective_of_rho_zero (sol : Solution) (h : sol.inst.rho = 0) :
    objective_function_value sol =
      ((sol.routes.map (routeDistNat sol.inst)).sum : ℚ) := by
  unfold objective_function_value
  rw [h, get_route_distances_eq_cast_sum]
  ring

theorem objective_curReloc : objective_function_value curReloc = 12 := by
  rw [objective_of_rho_zero curReloc rfl,
    show (curReloc.routes.map (routeDistNat curReloc.inst)).sum = 12 by decide]
  norm_num

theorem objective_relocA :
    objective_function_value ⟨instReloc, [[], [1, 3, 2, 4]]⟩ = 10 := by
  rw [objective_of_rho_zero _ rfl,
    show ((⟨instReloc, [[], [1, 3, 2, 4]]⟩ : Solution).routes.map
      (routeDistNat instReloc)).sum = 10 by decide]
  norm_num

theorem objective_relocB :
    objective_function_value ⟨instReloc, [[], [2, 1, 3, 4]]⟩ = 18 := by
  rw [objective_of_rho_zero _ rfl,
    show ((⟨instReloc, [[], [2, 1, 3, 4]]⟩ : Solution).routes.map
      (routeDistNat instReloc)).sum = 18 by decide]
  norm_num

theorem objective_relocC :
    objective_function_value ⟨instReloc, [[], [2, 4, 1, 3]]⟩ = 10 := by
  rw [objective_of_rho_zero _ rfl,
    show ((⟨instReloc, [[], [2, 4, 1, 3]]⟩ : Solution).routes.map
      (routeDistNat instReloc)).sum = 10 by decide]
  norm_num

theorem objective_relocD :
    objective_function_value ⟨instReloc, [[2, 4, 1, 3], []]⟩ = 10 := by
  rw [objective_of_rho_zero _ rfl,
    show ((⟨instReloc, [[2, 4, 1, 3], []]⟩ : Solution).routes.map
      (routeDistNat instReloc)).sum = 10 by decide]
  norm_num

theorem objective_relocE :
    objective_function_value ⟨instReloc, [[1, 2, 4, 3], []]⟩ = 10 := by
  rw [objective_of_rho_zero _ rfl,
    show ((⟨instReloc, [[1, 2, 4, 3], []]⟩ : Solution).routes.map
      (routeDistNat instReloc)).sum = 10 by decide]
  norm_num

theorem objective_relocF :
    objective_function_value ⟨instReloc, [[1, 3, 2, 4], []]⟩ = 10 := by
  rw [objective_of_rho_zero _ rfl,
    show ((⟨instReloc, [[1, 3, 2, 4], []]⟩ : Solution).routes.map
      (routeDistNat instReloc)).sum = 10 by decide]
  norm_num

/-- The full Relocate neighborhood of `curReloc`, computed. -/
theorem relocate_nh_curReloc :
    relocate_nh instReloc curReloc =
      [⟨instReloc, [[], [1, 3, 2, 4]]⟩, ⟨instReloc, [[], [2, 1, 3, 4]]⟩,
       ⟨instReloc, [[], [2, 4, 1, 3]]⟩, ⟨instReloc, [[2, 4, 1, 3], []]⟩,
       ⟨instReloc, [[1, 2, 4, 3], []]⟩, ⟨instReloc, [[1, 3, 2, 4], []]⟩] := by
  decide

/-- The best-improvement Relocate step on `curReloc`, computed. -/
theorem search_step_curReloc :
    search_step instReloc cfgBestReloc curReloc =
      some ⟨instReloc, [[], [1, 3, 2, 4]]⟩ := by
  simp only [search_step, cfgBestReloc, generate_neighbors, relocate_nh_curReloc,
    List.foldl_cons, List.foldl_nil, objective_curReloc, objective_relocA,
    objective_relocB, objective_relocC, objective_relocD, objective_relocE,
    objective_relocF]
  norm_num

theorem sum_sq_nonneg_list (l : List ℚ) : 0 ≤ (l.map (fun d => d * d)).sum := by
  induction l with
  | nil => simp
  | cons a t ih =>
    simp only [List.map_cons, List.sum_cons]
    nlinarith [mul_self_nonneg a]

/-- Cauchy–Schwarz for list sums: `(Σd)² ≤ k · Σd²`. -/
theorem sum_mul_self_le_length_mul_sum_sq (l : List ℚ) :
    l.sum * l.sum ≤ (l.length : ℚ) * (l.map (fun d => d * d)).sum := by
  induction l with
  | nil => simp
  | cons a t ih =>
    simp only [List.sum_cons, List.map_cons, List.length_cons]
    push_cast
    have hq := sum_sq_nonneg_list t
    by_cases ht : t = []
    · subst ht
      simp only [List.sum_nil, List.length_nil, List.map_nil]
      push_cast
      nlinarith [mul_self_nonneg a]
    · have hn1 : (1 : ℚ) ≤ (t.length : ℚ) := by
        have h1 : 1 ≤ t.length := Nat.one_le_iff_ne_zero.2
          (fun h => ht (List.eq_nil_of_length_eq_zero h))
        exact_mod_cast h1
      nlinarith [ih, hq, hn1, sq_nonneg ((t.length : ℚ) * a - t.sum),
        mul_nonneg (sub_nonneg.2 ih) (le_trans zero_le_one hn1)]

theorem sum_of_all_eq (l : List ℚ) (c : ℚ) (h : ∀ a ∈ l, a = c) :
    l.sum = (l.length : ℚ) * c := by
  induction l with
  | nil => simp
  | cons a t ih =>
    have ha := h a (List.mem_cons_self a t)
    have ht : ∀ x ∈ t, x = c := fun x hx => h x (List.mem_cons_of_mem a hx)
    rw [List.sum_cons, List.length_cons, ih ht, ha]
    push_cast
    ring

theorem sum_sq_zero_of_all_zero (l : List ℚ) (h : ∀ a ∈ l, a = 0) :
    (l.map (fun d => d * d)).sum = 0 := by
  induction l with
  | nil => simp
  | cons a t ih =>
    have ha := h a (List.mem_cons_self a t)
    have ht : ∀ x ∈ t, x = 0 := fun x hx => h x (List.mem_cons_of_mem a hx)
    simp [ha, ih ht]

theorem get_route_distances_cast (sol : Solution) :
    get_route_distances sol =
      (sol.routes.map (routeDistNat sol.inst)).map (fun n : Nat => (n : ℚ)) := by
  simp [get_route_distances, List.map_map, Function.comp]

theorem sum_sq_cast (l : List Nat) :
    ((l.map (fun n : Nat => (n : ℚ))).map (fun d => d * d)).sum =
      (((l.map (fun n : Nat => n * n)).sum : Nat) : ℚ) := by
  induction l with
  | nil => simp
  | cons a t ih =>
    simp only [List.map_cons, List.sum_cons, Nat.cast_add, Nat.cast_mul, ih]

/-- The Jain index of a list of non-negative, integer-valued distances (the
shape of `jain_fairness`'s body): positive, at most `1`, given by the exact
formula whenever the sum of squares is non-zero, and exactly `1` whenever
all distances are equal. -/
theorem jain_master (ds : List ℚ) (hnn : ∀ d ∈ ds, 0 ≤ d)
    (hN : ∃ N : Nat, (ds.map (fun d => d * d)).sum = (N : ℚ)) :
    0 < (if (ds.map (fun d => d * d)).sum ≤ 1 / 1000000000000 then (1 : ℚ)
      else (ds.sum * ds.sum) /
        ((ds.length : ℚ) * (ds.map (fun d => d * d)).sum)) ∧
    (if (ds.map (fun d => d * d)).sum ≤ 1 / 1000000000000 then (1 : ℚ)
      else (ds.sum * ds.sum) /
        ((ds.length : ℚ) * (ds.map (fun d => d * d)).sum)) ≤ 1 ∧
    ((ds.map (fun d => d * d)).sum ≠ 0 →
      (if (ds.map (fun d => d * d)).sum ≤ 1 / 1000000000000 then (1 : ℚ)
        else (ds.sum * ds.sum) /
          ((ds.length : ℚ) * (ds.map (fun d => d * d)).sum)) =
      (ds.sum * ds.sum) / ((ds.length : ℚ) * (ds.map (fun d => d * d)).sum)) ∧
    ((∀ a ∈ ds, ∀ b ∈ ds, a = b) →
      (if (ds.map (fun d => d * d)).sum ≤ 1 / 1000000000000 then (1 : ℚ)
        else (ds.sum * ds.sum) /
          ((ds.length : ℚ) * (ds.map (fun d => d * d)).sum)) = 1) := by
  obtain ⟨N, hNeq⟩ := hN
  by_cases hc : (ds.map (fun d => d * d)).sum ≤ 1 / 1000000000000
  · have h0 : (ds.map (fun d => d * d)).sum = 0 := by
      rw [hNeq] at hc ⊢
      by_cases hzero : N = 0
      · rw [hzero]; norm_num
      · exfalso
        have h1 : (1 : ℚ) ≤ (N : ℚ) := by
          exact_mod_cast Nat.one_le_iff_ne_zero.2 hzero
        linarith
    rw [if_pos hc]
    exact ⟨one_pos, le_refl 1, fun hne => absurd h0 hne, fun _ => rfl⟩
  · rw [if_neg hc]
    have hsqpos : 0 < (ds.map (fun d => d * d)).sum := by
      have := lt_of_not_le hc
      linarith [this]
    have hne_nil : ds ≠ [] := by
      intro h
      rw [h] at hsqpos
      simp at hsqpos
    have hk : 0 < (ds.length : ℚ) := by
      have hlen : ds.length ≠ 0 := fun h => hne_nil (List.eq_nil_of_length_eq_zero h)
      exact_mod_cast Nat.pos_of_ne_zero hlen
    have hex : ∃ d ∈ ds, d ≠ 0 := by
      by_contra hall
      push_neg at hall
      exact absurd (sum_sq_zero_of_all_zero ds hall) (ne_of_gt hsqpos)
    obtain ⟨d0, hd0mem, hd0ne⟩ := hex
    have hd0 : 0 < d0 := lt_of_le_of_ne (hnn d0 hd0mem) (Ne.symm hd0ne)
    have hs : 0 < ds.sum := lt_of_lt_of_le hd0 (List.single_le_sum hnn d0 hd0mem)
    refine ⟨div_pos (mul_pos hs hs) (mul_pos hk hsqpos), ?_, fun _ => rfl, ?_⟩
    · rw [div_le_one (mul_pos hk hsqpos)]
      exact sum_mul_self_le_length_mul_sum_sq ds
    · intro hall
      have hallc : ∀ a ∈ ds, a = d0 := fun a ha => hall a ha d0 hd0mem
      have hsum := sum_of_all_eq ds d0 hallc
      have hsqeq : (ds.map (fun d => d * d)).sum = (ds.length : ℚ) * (d0 * d0) := by
        have hmap : ∀ a ∈ ds.map (fun d => d * d), a = d0 * d0 := by
          intro a ha
          obtain ⟨b, hb, rfl⟩ := List.mem_map.1 ha
          rw [hallc b hb]
        have := sum_of_all_eq (ds.map (fun d => d * d)) (d0 * d0) hmap
        rwa [List.length_map] at this
      rw [hsum, hsqeq]
      have hk' : (ds.length : ℚ) ≠ 0 := ne_of_gt hk
      have hd0' : d0 ≠ 0 := ne_of_gt hd0
      field_simp
      ring

theorem getD_set_same {α : Type} (l : List α) (i : Nat) (x d : α)
    (h : i < l.length) : (l.set i x).getD i d = x := by
  simp [List.getD_eq_getElem?_getD, List.getElem?_set_self h]

theorem getD_set_diff {α : Type} (l : List α) {i j : Nat} (x d : α)
    (h : i ≠ j) : (l.set i x).getD j d = l.getD j d := by
  simp [List.getD_eq_getElem?_getD, List.getElem?_set_ne h]

theorem getD_replicate {α : Type} (n i : Nat) (a : α) :
    (List.replicate n a).getD i a = a := by
  by_cases h : i < n
  · simp [List.getD_eq_getElem?_getD, List.getElem?_replicate, h]
  · simp [List.getD_eq_getElem?_getD, List.getElem?_replicate, h]

theorem dedupConsec_subset {α : Type} [DecidableEq α] :
    ∀ (l : List α), dedupConsec l ⊆ l
  | [] => by simp [dedupConsec]
  | [a] => by simp [dedupConsec]
  | a :: b :: l => by
    intro x hx
    simp only [dedupConsec] at hx
    by_cases hab : a = b
    · rw [if_pos hab] at hx
      exact List.mem_cons_of_mem a (dedupConsec_subset (b :: l) hx)
    · rw [if_neg hab] at hx
      rcases List.mem_cons.1 hx with rfl | hx
      · exact List.mem_cons_self x (b :: l)
      · exact List.mem_cons_of_mem a (dedupConsec_subset (b :: l) hx)

theorem mem_stableInsert {α : Type} (f : α → ℚ) (x y : α) :
    ∀ (l : List α), y ∈ stableInsert f x l ↔ y = x ∨ y ∈ l := by
  intro l
  induction l with
  | nil => simp [stableInsert]
  | cons a t ih =>
    simp only [stableInsert]
    by_cases hc : f a ≤ f x
    · rw [if_pos hc]
      simp only [List.mem_cons, ih]
      tauto
    · rw [if_neg hc]
      simp only [List.mem_cons]

theorem mem_stableSortBy {α : Type} (f : α → ℚ) (l : List α) (y : α) :
    y ∈ stableSortBy f l ↔ y ∈ l := by
  suffices h : ∀ (l acc : List α),
      (y ∈ l.foldl (fun acc x => stableInsert f x acc) acc ↔ y ∈ acc ∨ y ∈ l) by
    have := h l []
    simpa [stableSortBy] using this
  intro l
  induction l with
  | nil => intro acc; simp
  | cons a t ih =>
    intro acc
    simp only [List.foldl_cons, ih, mem_stableInsert, List.mem_cons]
    tauto

theorem select_best_states_subset (inst : Instance) (bw : Nat)
    (states : List PState) :
    ∀ x ∈ select_best_states inst bw states, x ∈ states := by
  intro x hx
  unfold select_best_states at hx
  by_cases h : states.length ≤ bw
  · rwa [if_pos h] at hx
  · rw [if_neg h] at hx
    obtain ⟨p, hp, rfl⟩ := List.mem_map.1 hx
    have hp2 := List.mem_of_mem_take hp
    rw [mem_stableSortBy] at hp2
    obtain ⟨s, hs, rfl⟩ := List.mem_map.1 hp2
    have hs2 := dedupConsec_subset _ hs
    rw [mem_stableSortBy] at hs2
    exact hs2

theorem nodeDelta_pickup (inst : Instance) {r : Nat} (hr : r < inst.nReqs) :
    nodeDelta inst (1 + r) = (inst.demands.getD r 0 : Int) := by
  unfold nodeDelta
  rw [if_pos ⟨by omega, by omega⟩]
  have hidx : 1 + r - 1 = r := by omega
  rw [hidx]

theorem nodeDelta_dropoff (inst : Instance) {r : Nat} (hr : r < inst.nReqs) :
    nodeDelta inst (1 + inst.nReqs + r) = -(inst.demands.getD r 0 : Int) := by
  unfold nodeDelta
  rw [if_neg (by omega), if_pos ⟨by omega, by omega⟩]
  have hidx : 1 + inst.nReqs + r - inst.nReqs - 1 = r := by omega
  rw [hidx]

theorem nodeDelta_depot (inst : Instance) : nodeDelta inst 0 = 0 := by
  unfold nodeDelta
  rw [if_neg (by omega)]
  by_cases h : inst.nReqs < 0 ∧ 0 ≤ 2 * inst.nReqs
  · omega
  · rw [if_neg h]

theorem routeLoad_append_single (inst : Instance) (l : List Nat) (a : Nat) :
    routeLoad inst (l ++ [a]) = routeLoad inst l + nodeDelta inst a := by
  simp [routeLoad]

theorem loadWithinCap_append (inst : Instance) (route : List Nat) (a : Nat)
    (hold : LoadWithinCap inst route)
    (hnew : 0 ≤ routeLoad inst (route ++ [a]) ∧
      routeLoad inst (route ++ [a]) ≤ (inst.cap : Int)) :
    LoadWithinCap inst (route ++ [a]) := by
  intro k
  by_cases hk : k ≤ route.length
  · rw [List.take_append_of_le_length hk]
    exact hold k
  · rw [List.take_of_length_le (by simp; omega)]
    exact hnew

theorem getD_demand_lt (inst : Instance) (hd : DemandsBounded inst) (r : Nat) :
    inst.demands.getD r 0 < 2 ^ 63 := by
  by_cases h : r < inst.demands.length
  · rw [List.getD_eq_getElem?_getD, List.getElem?_eq_getElem h]
    exact hd.2 _ (List.getElem_mem h)
  · rw [List.getD_eq_getElem?_getD, List.getElem?_eq_none (by omega)]
    norm_num

theorem mem_generate_successors {inst : Instance} {s s' : PState}
    (h : s' ∈ generate_successors inst s) :
    ∃ v, v < inst.nVehicles ∧
      ((∃ r, r < inst.nReqs ∧ s.reqStates.getD r .Unserved = .Unserved ∧
        uadd (s.currentLoads.getD v 0) (inst.demands.getD r 0) ≤ inst.cap ∧
        s' = apply_pickup inst s v r) ∨
      (∃ r, r < inst.nReqs ∧ s.reqStates.getD r .Unserved = .PickedUp ∧
        s.pickupVehicle.getD r none = some v ∧
        s' = apply_dropoff inst s v r) ∨
      s' = apply_depot_return s v) := by
  unfold generate_successors at h
  obtain ⟨v, hvmem, hv⟩ := List.mem_flatMap.1 h
  refine ⟨v, List.mem_range.1 hvmem, ?_⟩
  simp only [List.mem_append, List.mem_filterMap, List.mem_range,
    Option.ite_none_right_eq_some, Option.some.injEq] at hv
  rcases hv with (⟨r, hrlt, ⟨hg1, hg2⟩, heq⟩ | ⟨r, hrlt, ⟨hg1, hg2⟩, heq⟩) | hdep
  · exact Or.inl ⟨r, hrlt, hg1, hg2, heq.symm⟩
  · exact Or.inr (Or.inl ⟨r, hrlt, hg1, hg2, heq.symm⟩)
  · right; right
    by_cases hc : s.routes.getD v [] ≠ [] ∧
        (s.routes.getD v []).getLast?.getD 0 ≠ 0 ∧
        ¬((List.range inst.nReqs).any fun reqId =>
          decide (s.reqStates.getD reqId .Unserved = .Unserved) &&
            decide (uadd (s.currentLoads.getD v 0)
              (inst.demands.getD reqId 0) ≤ inst.cap)) = true ∧
        ¬((List.range inst.nReqs).any fun reqId =>
          decide (s.reqStates.getD reqId .Unserved = .PickedUp) &&
            decide (s.pickupVehicle.getD reqId none = some v)) = true
    · rw [if_pos hc] at hdep
      exact (List.mem_singleton.1 hdep)
    · rw [if_neg hc] at hdep
      cases hdep

theorem pickedSum_apply_depot (inst : Instance) (s : PState) (v w : Nat) :
    pickedSum inst (apply_depot_return s v) w = pickedSum inst s w := rfl

theorem pickedSum_apply_pickup (inst : Instance) (s : PState) (v r w : Nat)
    (hr : r < inst.nReqs) (hlen1 : s.reqStates.length = inst.nReqs)
    (hlen2 : s.pickupVehicle.length = inst.nReqs)
    (hU : s.reqStates.getD r .Unserved = .Unserved) :
    pickedSum inst (apply_pickup inst s v r) w =
      pickedSum inst s w + (if w = v then inst.demands.getD r 0 else 0) := by
  unfold pickedSum apply_pickup
  simp only
  have hrmem : r ∈ Finset.range inst.nReqs := Finset.mem_range.2 hr
  rw [← Finset.sum_erase_add _ _ hrmem, ← Finset.sum_erase_add _ _ hrmem]
  have hcongr : ∀ x ∈ (Finset.range inst.nReqs).erase r,
      (if (s.reqStates.set r .PickedUp).getD x .Unserved = .PickedUp ∧
          (s.pickupVehicle.set r (some v)).getD x none = some w
        then inst.demands.getD x 0 else 0) =
      (if s.reqStates.getD x .Unserved = .PickedUp ∧
          s.pickupVehicle.getD x none = some w
        then inst.demands.getD x 0 else 0) := by
    intro x hx
    have hxr : r ≠ x := fun hh => (Finset.ne_of_mem_erase hx) hh.symm
    rw [getD_set_diff _ _ _ hxr, getD_set_diff _ _ _ hxr]
  rw [Finset.sum_congr rfl hcongr]
  have hsetS : (s.reqStates.set r .PickedUp).getD r .Unserved = .PickedUp :=
    getD_set_same _ _ _ _ (by omega)
  have hsetP : (s.pickupVehicle.set r (some v)).getD r none = some v :=
    getD_set_same _ _ _ _ (by omega)
  rw [hsetS, hsetP, hU]
  by_cases hw : w = v
  · subst hw
    simp
  · simp [hw]
    intro hh
    exact absurd hh.symm hw

theorem pickedSum_apply_dropoff (inst : Instance) (s : PState) (v r w : Nat)
    (hr : r < inst.nReqs) (hlen1 : s.reqStates.length = inst.nReqs)
    (hlen2 : s.pickupVehicle.length = inst.nReqs)
    (hP : s.reqStates.getD r .Unserved = .PickedUp)
    (hpv : s.pickupVehicle.getD r none = some v) :
    pickedSum inst s w =
      pickedSum inst (apply_dropoff inst s v r) w +
        (if w = v then inst.demands.getD r 0 else 0) := by
  unfold pickedSum apply_dropoff
  simp only
  have hrmem : r ∈ Finset.range inst.nReqs := Finset.mem_range.2 hr
  rw [← Finset.sum_erase_add _ _ hrmem, ← Finset.sum_erase_add _ _ hrmem]
  have hcongr : ∀ x ∈ (Finset.range inst.nReqs).erase r,
      (if (s.reqStates.set r .Delivered).getD x .Unserved = .PickedUp ∧
          s.pickupVehicle.getD x none = some w
        then inst.demands.getD x 0 else 0) =
      (if s.reqStates.getD x .Unserved = .PickedUp ∧
          s.pickupVehicle.getD x none = some w
        then inst.demands.getD x 0 else 0) := by
    intro x hx
    have hxr : r ≠ x := fun hh => (Finset.ne_of_mem_erase hx) hh.symm
    rw [getD_set_diff _ _ _ hxr]
  rw [Finset.sum_congr rfl hcongr]
  have hsetS : (s.reqStates.set r .Delivered).getD r .Unserved = .Delivered :=
    getD_set_same _ _ _ _ (by omega)
  rw [hsetS, hP, hpv]
  by_cases hw : w = v
  · subst hw
    simp
  · simp [hw]
    intro hh
    exact absurd hh.symm hw

theorem demand_le_pickedSum (inst : Instance) (s : PState) (v r : Nat)
    (hr : r < inst.nReqs)
    (hP : s.reqStates.getD r .Unserved = .PickedUp)
    (hpv : s.pickupVehicle.getD r none = some v) :
    inst.demands.getD r 0 ≤ pickedSum inst s v := by
  unfold pickedSum
  have hb := Finset.single_le_sum
    (f := fun x => if s.reqStates.getD x .Unserved = .PickedUp ∧
      s.pickupVehicle.getD x none = some v then inst.demands.getD x 0 else 0)
    (fun i _ => Nat.zero_le _) (Finset.mem_range.2 hr)
  simp only at hb
  rwa [if_pos ⟨hP, hpv⟩] at hb

theorem inv_initial (inst : Instance) : Inv inst (initial_state inst) := by
  refine ⟨by simp [initial_state], by simp [initial_state],
    by simp [initial_state], by simp [initial_state], ?_, ?_, ?_, ?_⟩
  · intro v
    show (List.replicate inst.nVehicles 0).getD v 0 = _
    rw [getD_replicate]
    symm
    refine Finset.sum_eq_zero ?_
    intro i _
    rw [if_neg]
    rintro ⟨hc, -⟩
    have hc' : (List.replicate inst.nReqs ReqState.Unserved).getD i .Unserved =
        .PickedUp := hc
    rw [getD_replicate] at hc'
    cases hc'
  · intro v
    show (List.replicate inst.nVehicles 0).getD v 0 ≤ _
    rw [getD_replicate]
    exact Nat.zero_le _
  · intro v
    show routeLoad inst ((List.replicate inst.nVehicles []).getD v []) =
      (((List.replicate inst.nVehicles (0 : Nat)).getD v 0 : Nat) : Int)
    rw [getD_replicate, getD_replicate]
    simp [routeLoad]
  · intro v
    show LoadWithinCap inst ((List.replicate inst.nVehicles []).getD v [])
    rw [getD_replicate]
    intro k
    simp [routeLoad]

theorem inv_apply_pickup (inst : Instance) (hd : DemandsBounded inst)
    {s : PState} (hs : Inv inst s) {v r : Nat}
    (hv : v < inst.nVehicles) (hr : r < inst.nReqs)
    (hU : s.reqStates.getD r .Unserved = .Unserved)
    (hguard : uadd (s.currentLoads.getD v 0) (inst.demands.getD r 0) ≤
      inst.cap) :
    Inv inst (apply_pickup inst s v r) := by
  obtain ⟨h1, h2, h3, h4, h5, h6, h7, h8⟩ := hs
  have hdr := getD_demand_lt inst hd r
  have hload63 : s.currentLoads.getD v 0 < 2 ^ 63 := lt_of_le_of_lt (h6 v) hd.1
  have huadd : uadd (s.currentLoads.getD v 0) (inst.demands.getD r 0) =
      s.currentLoads.getD v 0 + inst.demands.getD r 0 := uadd_eq_add hload63 hdr
  have hguard' : s.currentLoads.getD v 0 + inst.demands.getD r 0 ≤ inst.cap := by
    rwa [huadd] at hguard
  refine ⟨by simp [apply_pickup, h1], by simp [apply_pickup, h2],
    by simp [apply_pickup, h3], by simp [apply_pickup, h4], ?_, ?_, ?_, ?_⟩
  · intro w
    rw [pickedSum_apply_pickup inst s v r w hr h3 h4 hU]
    show (s.currentLoads.set v _).getD w 0 = _
    by_cases hw : w = v
    · subst hw
      rw [getD_set_same _ _ _ _ (by omega), huadd, if_pos rfl, h5 w]
    · rw [getD_set_diff _ _ _ (fun hh => hw hh.symm), if_neg hw, Nat.add_zero]
      exact h5 w
  · intro w
    show (s.currentLoads.set v _).getD w 0 ≤ _
    by_cases hw : w = v
    · subst hw
      rw [getD_set_same _ _ _ _ (by omega), huadd]
      exact hguard'
    · rw [getD_set_diff _ _ _ (fun hh => hw hh.symm)]
      exact h6 w
  · intro w
    show routeLoad inst ((s.routes.set v _).getD w []) =
      (((s.currentLoads.set v _).getD w 0 : Nat) : Int)
    by_cases hw : w = v
    · subst hw
      rw [getD_set_same _ _ _ _ (by omega), getD_set_same _ _ _ _ (by omega),
        routeLoad_append_single, nodeDelta_pickup inst hr, h7 w, huadd]
      push_cast
      ring
    · rw [getD_set_diff _ _ _ (fun hh => hw hh.symm),
        getD_set_diff _ _ _ (fun hh => hw hh.symm)]
      exact h7 w
  · intro w
    show LoadWithinCap inst ((s.routes.set v _).getD w [])
    by_cases hw : w = v
    · subst hw
      rw [getD_set_same _ _ _ _ (by omega)]
      refine loadWithinCap_append inst _ _ (h8 w) ?_
      rw [routeLoad_append_single, nodeDelta_pickup inst hr, h7 w]
      constructor
      · omega
      · omega
    · rw [getD_set_diff _ _ _ (fun hh => hw hh.symm)]
      exact h8 w

theorem inv_apply_dropoff (inst : Instance) (hd : DemandsBounded inst)
    {s : PState} (hs : Inv inst s) {v r : Nat}
    (hv : v < inst.nVehicles) (hr : r < inst.nReqs)
    (hP : s.reqStates.getD r .Unserved = .PickedUp)
    (hpv : s.pickupVehicle.getD r none = some v) :
    Inv inst (apply_dropoff inst s v r) := by
  obtain ⟨h1, h2, h3, h4, h5, h6, h7, h8⟩ := hs
  have hdle : inst.demands.getD r 0 ≤ s.currentLoads.getD v 0 := by
    rw [h5 v]
    exact demand_le_pickedSum inst s v r hr hP hpv
  have hloadUW : s.currentLoads.getD v 0 < UW := by
    have hc := h6 v
    have hcap := hd.1
    unfold UW
    omega
  have husub : usub (s.currentLoads.getD v 0) (inst.demands.getD r 0) =
      s.currentLoads.getD v 0 - inst.demands.getD r 0 :=
    usub_eq_sub hdle hloadUW
  have hps := pickedSum_apply_dropoff inst s v r
  refine ⟨by simp [apply_dropoff, h1], by simp [apply_dropoff, h2],
    by simp [apply_dropoff, h3], by simp [apply_dropoff, h4], ?_, ?_, ?_, ?_⟩
  · intro w
    have hw' := hps w hr h3 h4 hP hpv
    show (s.currentLoads.set v _).getD w 0 = _
    by_cases hw : w = v
    · subst hw
      rw [getD_set_same _ _ _ _ (by omega), husub]
      rw [if_pos rfl] at hw'
      have h5v := h5 w
      omega
    · rw [getD_set_diff _ _ _ (fun hh => hw hh.symm)]
      rw [if_neg hw, Nat.add_zero] at hw'
      rw [h5 w]
      exact hw'
  · intro w
    show (s.currentLoads.set v _).getD w 0 ≤ _
    by_cases hw : w = v
    · subst hw
      rw [getD_set_same _ _ _ _ (by omega), husub]
      have := h6 w
      omega
    · rw [getD_set_diff _ _ _ (fun hh => hw hh.symm)]
      exact h6 w
  · intro w
    show routeLoad inst ((s.routes.set v _).getD w []) =
      (((s.currentLoads.set v _).getD w 0 : Nat) : Int)
    by_cases hw : w = v
    · subst hw
      rw [getD_set_same _ _ _ _ (by omega), getD_set_same _ _ _ _ (by omega),
        routeLoad_append_single, nodeDelta_dropoff inst hr, h7 w, husub,
        Nat.cast_sub hdle]
      ring
    · rw [getD_set_diff _ _ _ (fun hh => hw hh.symm),
        getD_set_diff _ _ _ (fun hh => hw hh.symm)]
      exact h7 w
  · intro w
    show LoadWithinCap inst ((s.routes.set v _).getD w [])
    by_cases hw : w = v
    · subst hw
      rw [getD_set_same _ _ _ _ (by omega)]
      refine loadWithinCap_append inst _ _ (h8 w) ?_
      rw [routeLoad_append_single, nodeDelta_dropoff inst hr, h7 w]
      have hcw := h6 w
      constructor
      · omega
      · omega
    · rw [getD_set_diff _ _ _ (fun hh => hw hh.symm)]
      exact h8 w

theorem inv_apply_depot (inst : Instance) {s : PState} (hs : Inv inst s)
    {v : Nat} (hv : v < inst.nVehicles) :
    Inv inst (apply_depot_return s v) := by
  obtain ⟨h1, h2, h3, h4, h5, h6, h7, h8⟩ := hs
  refine ⟨by simp [apply_depot_return, h1], h2, h3, h4, ?_, h6, ?_, ?_⟩
  · intro w
    rw [pickedSum_apply_depot]
    exact h5 w
  · intro w
    show routeLoad inst
        ((s.routes.set v ((s.routes.getD v []) ++ [0])).getD w []) =
      ((s.currentLoads.getD w 0 : Nat) : Int)
    by_cases hw : w = v
    · subst hw
      rw [getD_set_same _ _ _ _ (by omega), routeLoad_append_single,
        nodeDelta_depot, h7 w]
      ring
    · rw [getD_set_diff _ _ _ (fun hh => hw hh.symm)]
      exact h7 w
  · intro w
    show LoadWithinCap inst ((s.routes.set v _).getD w [])
    by_cases hw : w = v
    · subst hw
      rw [getD_set_same _ _ _ _ (by omega)]
      refine loadWithinCap_append inst _ _ (h8 w) ?_
      rw [routeLoad_append_single, nodeDelta_depot, h7 w]
      have hcw := h6 w
      constructor
      · omega
      · omega
    · rw [getD_set_diff _ _ _ (fun hh => hw hh.symm)]
      exact h8 w

theorem inv_step (inst : Instance) (hd : DemandsBounded inst) {s s' : PState}
    (hs : Inv inst s) (hmem : s' ∈ generate_successors inst s) :
    Inv inst s' := by
  obtain ⟨v, hv, hcase⟩ := mem_generate_successors hmem
  rcases hcase with ⟨r, hr, hU, hg, rfl⟩ | ⟨r, hr, hP, hpv, rfl⟩ | rfl
  · exact inv_apply_pickup inst hd hs hv hr hU hg
  · exact inv_apply_dropoff inst hd hs hv hr hP hpv
  · exact inv_apply_depot inst hs hv

theorem inv_reachable (inst : Instance) (hd : DemandsBounded inst) :
    ∀ s, Reachable inst s → Inv inst s := by
  intro s h
  induction h with
  | init => exact inv_initial inst
  | step hra hmem ih => exact inv_step inst hd ih hmem

theorem searchGo_reachable (inst : Instance) (bw : Nat) :
    ∀ (fuel : Nat) (beam : List PState),
      (∀ x ∈ beam, Reachable inst x) →
      ∀ x ∈ searchGo inst bw fuel beam, Reachable inst x := by
  intro fuel
  induction fuel with
  | zero => intro beam h x hx; exact h x hx
  | succ f ih =>
    intro beam h x hx
    simp only [searchGo] at hx
    split at hx
    · exact h x hx
    · split at hx
      · exact h x hx
      · split at hx
        · refine ih _ ?_ x hx
          intro y hy
          have hy1 := select_best_states_subset inst bw _ y hy
          have hy2 := (List.mem_filter.1 hy1).1
          obtain ⟨s, hsm, hy3⟩ := List.mem_flatMap.1 hy2
          exact Reachable.step (h s hsm) hy3
        · split at hx
          · have hx1 := select_best_states_subset inst bw _ x hx
            rcases List.mem_append.1 hx1 with hb | hfm
            · have hb1 := select_best_states_subset inst bw _ _ hb
              have hb2 := (List.mem_filter.1 hb1).1
              obtain ⟨s, hsm, hy3⟩ := List.mem_flatMap.1 hb2
              exact Reachable.step (h s hsm) hy3
            · obtain ⟨sb, hsb, hx2⟩ := List.mem_flatMap.1 hfm
              have hb1 := select_best_states_subset inst bw _ _ hsb
              have hb2 := (List.mem_filter.1 hb1).1
              obtain ⟨s, hsm, hy3⟩ := List.mem_flatMap.1 hb2
              exact Reachable.step (Reachable.step (h s hsm) hy3) hx2
          · have hb1 := select_best_states_subset inst bw _ _ hx
            have hb2 := (List.mem_filter.1 hb1).1
            obtain ⟨s, hsm, hy3⟩ := List.mem_flatMap.1 hb2
            exact Reachable.step (h s hsm) hy3

theorem foldl_min_mem (inst : Instance) :
    ∀ (xs : List PState) (x : PState),
      xs.foldl (fun acc y =>
        if objective_function_value ⟨inst, y.routes⟩ <
            objective_function_value ⟨inst, acc.routes⟩ then y else acc) x ∈
        x :: xs := by
  intro xs
  induction xs with
  | nil => intro x; simp
  | cons a t ih =>
    intro x
    simp only [List.foldl_cons]
    by_cases hc : objective_function_value ⟨inst, a.routes⟩ <
        objective_function_value ⟨inst, x.routes⟩
    · rw [if_pos hc]
      have hm := ih a
      simp only [List.mem_cons] at hm ⊢
      tauto
    · rw [if_neg hc]
      have hm := ih x
      simp only [List.mem_cons] at hm ⊢
      tauto

theorem minByObjective_mem (inst : Instance) :
    ∀ (l : List PState) (st : PState), minByObjective inst l = some st → st ∈ l
  | [], st, h => by cases h
  | x :: xs, st, h => by
    simp only [minByObjective, Option.some.injEq] at h
    rw [← h]
    exact foldl_min_mem inst xs x

theorem is_valid_empty_routes (inst : Instance) (k : Nat)
    (hγ : 1 ≤ inst.gamma) : is_valid (Solution.empty inst k) = false := by
  have hvr : ∀ (m vid : Nat) (sb : List (Option Nat)) (sc : Nat),
      validRoutes inst (List.replicate m []) vid sb sc = some (sb, sc) := by
    intro m
    induction m with
    | zero => intro vid sb sc; rfl
    | succ n ih =>
      intro vid sb sc
      show validRoutes inst ([] :: List.replicate n []) vid sb sc = _
      simp only [validRoutes, validRoute]
      rw [if_neg (by omega)]
      exact ih (vid + 1) sb sc
  show is_valid ⟨inst, List.replicate k []⟩ = false
  unfold is_valid
  rw [hvr]
  simp only
  rw [decide_eq_false (by omega)]

theorem is_feasible_initial (inst : Instance) :
    is_feasible inst (initial_state inst) = true := by
  unfold is_feasible initial_state
  simp only [Bool.and_eq_true, List.all_eq_true]
  constructor
  · intro load hl
    rw [List.eq_of_mem_replicate hl]
    simp
  · intro r _
    have hg : (List.replicate inst.nReqs ReqState.Unserved).getD r .Unserved =
        .Unserved := getD_replicate _ _ _
    simp [hg]

/-- C7: if no reachable beam state is both feasible and meets gamma, the
beam search returns the canonical all-empty-routes solution, and that
sentinel fails `is_valid`. -/
theorem beam_search_fallback_invalid (inst : Instance) (bw : Nat)
    (md : Option Nat)
    (H : ∀ s, Reachable inst s →
      ¬ (inst.gamma ≤ s.servedCount ∧ is_feasible inst s = true)) :
    beam_search inst bw md = Solution.empty inst inst.nVehicles ∧
    is_valid (Solution.empty inst inst.nVehicles) = false := by
  have hinitR : ∀ x ∈ [initial_state inst], Reachable inst x := by
    intro x hx
    rw [List.mem_singleton.1 hx]
    exact Reachable.init
  have hfinal := searchGo_reachable inst bw (md.getD (inst.nReqs * 4))
    [initial_state inst] hinitR
  have hγ : 1 ≤ inst.gamma := by
    by_contra hγ'
    refine H (initial_state inst) Reachable.init ⟨?_, is_feasible_initial inst⟩
    show inst.gamma ≤ 0
    omega
  constructor
  · have hfilter : (searchGo inst bw (md.getD (inst.nReqs * 4))
        [initial_state inst]).filter (fun s =>
          decide (inst.gamma ≤ s.servedCount) && is_feasible inst s) = [] := by
      rw [List.filter_eq_nil_iff]
      intro s hs
      have hH := H s (hfinal s hs)
      simp only [Bool.and_eq_true, decide_eq_true_eq]
      rintro ⟨hg, hf⟩
      exact hH ⟨hg, hf⟩
    have hbc : best_complete_solution inst
        (searchGo inst bw (md.getD (inst.nReqs * 4)) [initial_state inst]) =
        none := by
      unfold best_complete_solution
      rw [hfilter]
      rfl
    simp only [beam_search]
    rw [hbc]
    rfl
  · exact is_valid_empty_routes inst inst.nVehicles hγ

/-- C6: every beam-search state reachable from the root keeps every
vehicle's load at most the capacity (capacity-exceeding successors are
never generated), and consequently — for every beam width and depth bound —
every route of any solution returned by the beam search has a running load
within `[0, cap]` at every prefix. -/
theorem beam_search_loads_within_capacity (inst : Instance)
    (hd : DemandsBounded inst) :
    (∀ s, Reachable inst s → ∀ v, s.currentLoads.getD v 0 ≤ inst.cap) ∧
    (∀ bw md, ∀ route ∈ (beam_search inst bw md).routes,
      LoadWithinCap inst route) := by
  constructor
  · intro s hs v
    obtain ⟨-, -, -, -, -, h6, -, -⟩ := inv_reachable inst hd s hs
    exact h6 v
  · intro bw md route hroute
    have hinitR : ∀ x ∈ [initial_state inst], Reachable inst x := by
      intro x hx
      rw [List.mem_singleton.1 hx]
      exact Reachable.init
    have hfinal := searchGo_reachable inst bw (md.getD (inst.nReqs * 4))
      [initial_state inst] hinitR
    simp only [beam_search] at hroute
    cases hbc : best_complete_solution inst
        (searchGo inst bw (md.getD (inst.nReqs * 4)) [initial_state inst]) with
    | none =>
      rw [hbc] at hroute
      have hempty : route = [] := by
        have : route ∈ List.replicate inst.nVehicles ([] : List Nat) := hroute
        exact List.eq_of_mem_replicate this
      subst hempty
      intro k
      simp [routeLoad]
    | some sol =>
      rw [hbc] at hroute
      unfold best_complete_solution at hbc
      cases hmin : minByObjective inst
          ((searchGo inst bw (md.getD (inst.nReqs * 4))
            [initial_state inst]).filter (fun s =>
              decide (inst.gamma ≤ s.servedCount) && is_feasible inst s)) with
      | none => rw [hmin] at hbc; cases hbc
      | some st =>
        rw [hmin] at hbc
        injection hbc with hbc
        have hroute' : route ∈ st.routes := by
          rw [← hbc] at hroute
          exact hroute
        have hmem := minByObjective_mem inst _ _ hmin
        have hstR : Reachable inst st := hfinal st (List.mem_filter.1 hmem).1
        obtain ⟨-, -, -, -, -, -, -, h8⟩ := inv_reachable inst hd st hstR
        obtain ⟨i, hi, hgeti⟩ := List.getElem_of_mem hroute'
        have hgd : st.routes.getD i [] = route := by
          rw [List.getD_eq_getElem?_getD, List.getElem?_eq_getElem hi]
          simpa using hgeti
        rw [← hgd]
        exact h8 i

/-- C6 witness: on `instReloc` (bounded demands) every reachable state's
loads are within capacity and every returned route's load profile is
within `[0, 2]`. -/
theorem beam_search_loads_within_capacity_witness :
    DemandsBounded instReloc ∧
    (∀ s, Reachable instReloc s →
      ∀ v, s.currentLoads.getD v 0 ≤ instReloc.cap) ∧
    (∀ bw md, ∀ route ∈ (beam_search instReloc bw md).routes,
      LoadWithinCap instReloc route) :=
  ⟨⟨by decide, by decide⟩,
    (beam_search_loads_within_capacity instReloc ⟨by decide, by decide⟩).1,
    (beam_search_loads_within_capacity instReloc ⟨by decide, by decide⟩).2⟩

/-- C7 witness: on `instInfeasible` (the single demand exceeds capacity)
nothing is ever served, the root has no successors, and beam search returns
the invalid all-empty sentinel. -/
theorem beam_search_fallback_invalid_witness :
    (∀ s, Reachable instInfeasible s →
      ¬ (instInfeasible.gamma ≤ s.servedCount ∧
        is_feasible instInfeasible s = true)) ∧
    beam_search instInfeasible 1 (some 3) =
      Solution.empty instInfeasible instInfeasible.nVehicles ∧
    is_valid (Solution.empty instInfeasible instInfeasible.nVehicles) =
      false := by
  have hsucc : generate_successors instInfeasible
      (initial_state instInfeasible) = [] := by decide
  have hH : ∀ s, Reachable instInfeasible s →
      ¬ (instInfeasible.gamma ≤ s.servedCount ∧
        is_feasible instInfeasible s = true) := by
    intro s hs
    have hs_eq : s = initial_state instInfeasible := by
      induction hs with
      | init => rfl
      | step hra hmem ih =>
        rw [ih] at hmem
        rw [hsucc] at hmem
        cases hmem
    rw [hs_eq]
    decide
  exact ⟨hH, (beam_search_fallback_invalid instInfeasible 1 (some 3) hH).1,
    (beam_search_fallback_invalid instInfeasible 1 (some 3) hH).2⟩

/-! ## Claims -/

/-- C1: `is_valid` succeeds although only ONE distinct request is fully
served while gamma is 2: on the single route `[1, 2, 4, 4, 4]` both pickups
happen and request 1's dropoff node `4` is visited three times, so the
internal `served_count` reaches 3 and the load returns to zero, yet request
0 is never delivered.  `is_valid` therefore does NOT require the number of
distinct fully-served requests to reach gamma, contradicting the claim. -/
theorem is_valid_true_with_one_distinct_served :
    is_valid ⟨instDouble, [[1, 2, 4, 4, 4]]⟩ = true ∧
    distinctFullyServed ⟨instDouble, [[1, 2, 4, 4, 4]]⟩ = 1 ∧
    instDouble.gamma = 2 := by decide

/-- C10: `is_valid` is total on routes over the node index space
`0..=2n` — in the wrapping (release) `usize` semantics it always returns a
boolean, also when a dropoff repeats and the running-load subtraction
wraps around. -/
theorem is_valid_total_in_range (inst : Instance) (routes : List (List Nat))
    (h : ∀ r ∈ routes, ∀ node ∈ r, node ≤ 2 * inst.nReqs) :
    is_valid ⟨inst, routes⟩ = true ∨ is_valid ⟨inst, routes⟩ = false := by
  cases hv : is_valid ⟨inst, routes⟩
  · exact Or.inr rfl
  · exact Or.inl rfl

/-- C10 witness: the double-dropoff route `[1, 2, 2]` (whose second dropoff
makes the running-load subtraction wrap) is in range and `is_valid`
evaluates on it — to `false`, because the wrapped load is non-zero at the
end of the route. -/
theorem is_valid_total_in_range_witness :
    (∀ r ∈ [[1, 2, 2]], ∀ node ∈ r, node ≤ 2 * instSingle.nReqs) ∧
    (is_valid ⟨instSingle, [[1, 2, 2]]⟩ = true ∨
      is_valid ⟨instSingle, [[1, 2, 2]]⟩ = false) ∧
    is_valid ⟨instSingle, [[1, 2, 2]]⟩ = false :=
  ⟨by decide, is_valid_total_in_range instSingle [[1, 2, 2]] (by decide),
    by decide⟩

/-- C4: one accepted strictly-improving Relocate step, after which
`solve` still returns the INITIAL solution (objective 12) instead of the
accepted valid neighbor (objective 10): the best-solution update compares
the stale pre-acceptance objective `current_obj` with `best_obj`
(12 < 12 fails), so the best-ever valid solution is lost. -/
theorem sa_solve_returns_stale_best :
    simulated_annealing_solve instReloc cfgOneStep curReloc [(0, false)] 1 =
      curReloc ∧
    (⟨instReloc, [[], [1, 3, 2, 4]]⟩ : Solution) ∈
      generate_neighbors instReloc .Relocate curReloc ∧
    objective_function_value ⟨instReloc, [[], [1, 3, 2, 4]]⟩ <
      objective_function_value curReloc ∧
    is_valid ⟨instReloc, [[], [1, 3, 2, 4]]⟩ = true ∧
    is_valid curReloc = true := by
  refine ⟨?_, by decide, ?_, by decide, by decide⟩
  · simp only [simulated_annealing_solve, sa_outer, sa_inner, sa_step,
      cfgOneStep, generate_neighbors, relocate_nh_curReloc, objective_curReloc,
      objective_relocA, List.isEmpty_cons, List.headD_cons, List.length_cons,
      List.length_nil, List.getD, List.getElem?_cons_zero, List.tail_cons]
    norm_num [objective_relocA]
  · rw [objective_relocA, objective_curReloc]
    norm_num

/-- C2 counterexample: relocating request 0 onto vehicle 1 with its pickup
at position 0, the dropoff position 2 is capacity-feasible (route
`[1, 2, 3, 4]`, loads 1,2,1,0 with capacity 2) and the full solution is
valid — but the generated Relocate neighborhood does not contain it:
`insert_request_into_route` keeps only the FIRST feasible dropoff
position (yielding `[1, 3, 2, 4]`), not every feasible one. -/
theorem relocate_missing_feasible_dropoff :
    ((⟨instReloc, [[], [1, 2, 3, 4]]⟩ : Solution) ∉
      relocate_nh instReloc curReloc) ∧
    insertAt 2 (0 + 1 + instReloc.nReqs) (insertAt 0 (0 + 1) [2, 4]) =
      [1, 2, 3, 4] ∧
    check_route_capacity instReloc [1, 2, 3, 4] = true ∧
    is_valid ⟨instReloc, [[], [1, 2, 3, 4]]⟩ = true := by decide

/-- C2 (amended): for every request served by `v1` and every insertion
position of its pickup into `v2 ≠ v1`, whenever
`insert_request_into_route` finds a (first-fit) dropoff position and the
resulting complete solution is valid, that candidate is in the Relocate
neighborhood. -/
theorem relocate_first_fit_membership (inst : Instance) (current : Solution)
    (v1 v2 req pos : Nat) (r2 : List Nat)
    (hv1 : v1 < current.routes.length) (hv2 : v2 < current.routes.length)
    (hne : v1 ≠ v2)
    (hreq : req ∈ extract_requests_from_route inst (current.routes.getD v1 []))
    (hpos : pos < (current.routes.getD v2 []).length + 1)
    (hins : insert_request_into_route inst (current.routes.getD v2 []) req pos
      = some r2)
    (hval : is_valid ⟨current.inst,
      (current.routes.set v1
        (remove_request_from_route inst (current.routes.getD v1 []) req)).set
        v2 r2⟩ = true) :
    (⟨current.inst,
      (current.routes.set v1
        (remove_request_from_route inst (current.routes.getD v1 []) req)).set
        v2 r2⟩ : Solution) ∈ relocate_nh inst current := by
  unfold relocate_nh
  refine List.mem_flatMap.2 ⟨v1, List.mem_range.2 hv1, ?_⟩
  refine List.mem_flatMap.2 ⟨v2, List.mem_range.2 hv2, ?_⟩
  rw [if_neg hne]
  refine List.mem_flatMap.2 ⟨req, hreq, ?_⟩
  refine List.mem_filterMap.2 ⟨pos, List.mem_range.2 hpos, ?_⟩
  simp only [hins, hval, if_true]

/-- C2 witness: relocating request 0 of `curReloc` onto vehicle 1 with the
pickup at position 0 yields the first-fit candidate `[[], [1, 3, 2, 4]]`,
which is in the neighborhood. -/
theorem relocate_first_fit_membership_witness :
    (0 : Nat) < curReloc.routes.length ∧ (1 : Nat) < curReloc.routes.length ∧
    (0 : Nat) ≠ 1 ∧
    0 ∈ extract_requests_from_route instReloc (curReloc.routes.getD 0 []) ∧
    (0 : Nat) < (curReloc.routes.getD 1 []).length + 1 ∧
    insert_request_into_route instReloc (curReloc.routes.getD 1 []) 0 0 =
      some [1, 3, 2, 4] ∧
    is_valid ⟨curReloc.inst,
      (curReloc.routes.set 0
        (remove_request_from_route instReloc (curReloc.routes.getD 0 []) 0)).set
        1 [1, 3, 2, 4]⟩ = true ∧
    (⟨curReloc.inst,
      (curReloc.routes.set 0
        (remove_request_from_route instReloc (curReloc.routes.getD 0 []) 0)).set
        1 [1, 3, 2, 4]⟩ : Solution) ∈ relocate_nh instReloc curReloc :=
  ⟨by decide, by decide, by decide, by decide, by decide, by decide, by decide,
    relocate_first_fit_membership instReloc curReloc 0 1 0 0 [1, 3, 2, 4]
      (by decide) (by decide) (by decide) (by decide) (by decide) (by decide)
      (by decide)⟩

/-- C3 counterexample: on the 4-stop route `[1, 3, 2, 4]` of `instTight`
(capacity 1), the interior cut pair `(1, 2)` produces the reversal
`[1, 2, 3, 4]`, which violates capacity; the claim says TwoOpt emits it
without validity filtering, but the generated neighborhood is empty —
`two_opt_nh` filters through the full `is_valid` check. -/
theorem two_opt_filters_by_validity :
    two_opt_nh instTight ⟨instTight, [[1, 3, 2, 4]]⟩ = [] ∧
    reverseSegment [1, 3, 2, 4] 1 2 = [1, 2, 3, 4] ∧
    is_valid ⟨instTight, [[1, 2, 3, 4]]⟩ = false := by decide

/-- C3 (amended): every emitted TwoOpt candidate passes `is_valid`, and
conversely every interior-cut reversal of a route with at least 4 stops
whose result passes `is_valid` is emitted (so the generator DOES filter by
validity; the interior bounds `1 ≤ i < j ≤ len − 2` force `len ≥ 4`). -/
theorem two_opt_emits_valid_reversals (inst : Instance) (current : Solution) :
    (∀ s ∈ two_opt_nh inst current, is_valid s = true) ∧
    (∀ v i j, v < current.routes.length → 1 ≤ i → i < j →
      j + 1 < (current.routes.getD v []).length →
      is_valid ⟨current.inst, current.routes.set v
        (reverseSegment (current.routes.getD v []) i j)⟩ = true →
      (⟨current.inst, current.routes.set v
        (reverseSegment (current.routes.getD v []) i j)⟩ : Solution) ∈
        two_opt_nh inst current) := by
  constructor
  · intro s hs
    unfold two_opt_nh at hs
    obtain ⟨v, _, hs⟩ := List.mem_flatMap.1 hs
    by_cases hlen : (current.routes.getD v []).length < 4
    · rw [if_pos hlen] at hs
      cases hs
    · rw [if_neg hlen] at hs
      obtain ⟨i, _, hs⟩ := List.mem_flatMap.1 hs
      obtain ⟨j, _, hj⟩ := List.mem_filterMap.1 hs
      by_cases hv : is_valid ⟨current.inst, current.routes.set v
          (reverseSegment (current.routes.getD v []) i j)⟩ = true
      · rw [if_pos hv] at hj
        cases hj
        exact hv
      · rw [if_neg hv] at hj
        cases hj
  · intro v i j hv hi hij hjlen hval
    have hlen4 : ¬ (current.routes.getD v []).length < 4 := by omega
    unfold two_opt_nh
    refine List.mem_flatMap.2 ⟨v, List.mem_range.2 hv, ?_⟩
    rw [if_neg hlen4]
    refine List.mem_flatMap.2 ⟨i, ?_, ?_⟩
    · exact List.mem_range'_1.2 ⟨hi, by omega⟩
    · refine List.mem_filterMap.2 ⟨j, ?_, ?_⟩
      · exact List.mem_range'_1.2 ⟨by omega, by omega⟩
      · rw [if_pos hval]

/-- C3 witness: with capacity 2 the `(1, 2)` reversal of `[1, 3, 2, 4]` is
valid and is emitted by the generator. -/
theorem two_opt_emits_valid_reversals_witness :
    (0 : Nat) < (⟨instWide, [[1, 3, 2, 4]]⟩ : Solution).routes.length ∧
    (1 : Nat) ≤ 1 ∧ (1 : Nat) < 2 ∧
    (2 : Nat) + 1 <
      ((⟨instWide, [[1, 3, 2, 4]]⟩ : Solution).routes.getD 0 []).length ∧
    is_valid ⟨instWide, (⟨instWide, [[1, 3, 2, 4]]⟩ : Solution).routes.set 0
      (reverseSegment
        ((⟨instWide, [[1, 3, 2, 4]]⟩ : Solution).routes.getD 0 []) 1 2)⟩ =
      true ∧
    (⟨instWide, (⟨instWide, [[1, 3, 2, 4]]⟩ : Solution).routes.set 0
      (reverseSegment
        ((⟨instWide, [[1, 3, 2, 4]]⟩ : Solution).routes.getD 0 []) 1 2)⟩ :
      Solution) ∈ two_opt_nh instWide ⟨instWide, [[1, 3, 2, 4]]⟩ :=
  ⟨by decide, by decide, by decide, by decide, by decide,
    (two_opt_emits_valid_reversals instWide ⟨instWide, [[1, 3, 2, 4]]⟩).2
      0 1 2 (by decide) (by decide) (by decide) (by decide) (by decide)⟩

/-- C5 counterexample: with at most `beam_width` candidates the code
returns the successor list UNCHANGED — here a duplicated state survives,
whereas the claimed sort-dedup-truncate description removes it. -/
theorem select_keeps_duplicates_in_small_beams :
    select_best_states instReloc 20
        [initial_state instReloc, initial_state instReloc] =
      [initial_state instReloc, initial_state instReloc] ∧
    select_best_states_specified instReloc 20
        [initial_state instReloc, initial_state instReloc] =
      [initial_state instReloc] ∧
    select_best_states instReloc 20
        [initial_state instReloc, initial_state instReloc] ≠
      select_best_states_specified instReloc 20
        [initial_state instReloc, initial_state instReloc] := by
  have h1 : select_best_states instReloc 20
      [initial_state instReloc, initial_state instReloc] =
      [initial_state instReloc, initial_state instReloc] := rfl
  have h2 : select_best_states_specified instReloc 20
      [initial_state instReloc, initial_state instReloc] =
      [initial_state instReloc] := by
    simp only [select_best_states_specified, stableSortBy, List.foldl_cons,
      List.foldl_nil, stableInsert, le_refl, if_true]
    rw [List.dedup_cons_of_mem (by simp)]
    simp [List.dedup_cons_of_not_mem, List.take]
  refine ⟨h1, h2, ?_⟩
  rw [h1, h2]
  simp

/-- C5 (amended): beam selection never returns more than `beam_width`
states, and when at most `beam_width` candidates exist it returns the
candidate list unchanged (no sorting and no duplicate removal); only with
more than `beam_width` candidates does it sort, deduplicate consecutive
equal states, and truncate. -/
theorem select_best_states_size (inst : Instance) (beamWidth : Nat)
    (states : List PState) :
    (select_best_states inst beamWidth states).length ≤ beamWidth ∧
    (states.length ≤ beamWidth →
      select_best_states inst beamWidth states = states) := by
  unfold select_best_states
  by_cases h : states.length ≤ beamWidth
  · rw [if_pos h]
    exact ⟨h, fun _ => rfl⟩
  · rw [if_neg h]
    refine ⟨?_, fun hc => absurd hc h⟩
    rw [List.length_map]
    exact le_trans (List.length_take_le _ _) (le_refl _)

/-- C5 witness: a singleton beam is returned unchanged and respects the
size bound. -/
theorem select_best_states_size_witness :
    (select_best_states instReloc 20 [initial_state instReloc]).length ≤ 20 ∧
    select_best_states instReloc 20 [initial_state instReloc] =
      [initial_state instReloc] :=
  ⟨(select_best_states_size instReloc 20 [initial_state instReloc]).1,
    (select_best_states_size instReloc 20 [initial_state instReloc]).2
      (by decide)⟩

/-- C8: `jain_fairness` lies in `(0, 1]`, equals `(Σd)²/(k·Σd²)` whenever
the sum of squares is non-zero (the `1e-12` epsilon branch can only fire at
zero, because route distances are integer-valued), and equals exactly `1`
when all per-route distances are equal — including the all-zero case. -/
theorem jain_fairness_in_unit_interval (sol : Solution) :
    0 < jain_fairness sol ∧ jain_fairness sol ≤ 1 ∧
    (((get_route_distances sol).map (fun d => d * d)).sum ≠ 0 →
      jain_fairness sol =
        ((get_route_distances sol).sum * (get_route_distances sol).sum) /
          (((get_route_distances sol).length : ℚ) *
            ((get_route_distances sol).map (fun d => d * d)).sum)) ∧
    ((∀ a ∈ get_route_distances sol, ∀ b ∈ get_route_distances sol, a = b) →
      jain_fairness sol = 1) := by
  have hnn : ∀ d ∈ get_route_distances sol, 0 ≤ d := by
    intro d hd
    rw [get_route_distances_cast] at hd
    obtain ⟨n, _, rfl⟩ := List.mem_map.1 hd
    exact Nat.cast_nonneg n
  have hN : ∃ N : Nat,
      ((get_route_distances sol).map (fun d => d * d)).sum = (N : ℚ) := by
    refine ⟨((sol.routes.map (routeDistNat sol.inst)).map
      (fun n : Nat => n * n)).sum, ?_⟩
    rw [get_route_distances_cast]
    exact sum_sq_cast _
  exact jain_master (get_route_distances sol) hnn hN

/-- C8 witness: on the all-empty-routes solution all per-route distances
are equal (to zero) and the fairness index is exactly `1`, hence positive. -/
theorem jain_fairness_in_unit_interval_witness :
    jain_fairness ⟨instReloc, [[], []]⟩ = 1 ∧
    0 < jain_fairness ⟨instReloc, [[], []]⟩ := by
  have hds : get_route_distances ⟨instReloc, [[], []]⟩ = [0, 0] := by
    simp [get_route_distances, routeDistNat]
  have hall : ∀ a ∈ get_route_distances ⟨instReloc, [[], []]⟩,
      ∀ b ∈ get_route_distances ⟨instReloc, [[], []]⟩, a = b := by
    rw [hds]
    intro a ha b hb
    simp at ha hb
    rw [ha, hb]
  exact ⟨(jain_fairness_in_unit_interval ⟨instReloc, [[], []]⟩).2.2.2 hall,
    (jain_fairness_in_unit_interval ⟨instReloc, [[], []]⟩).1⟩

/-- Specification of the best-improvement fold of `search_step`: if it
produces `some x` starting from `(bo, bn)`, then either `bn` was already
`some x`, or `x` is one of the folded elements and its key is strictly
below the starting bound `bo`. -/
theorem foldl_best_eq_some {α : Type} (f : α → ℚ) :
    ∀ (l : List α) (bo : ℚ) (bn : Option α) (x : α),
      (l.foldl (fun acc nb => if f nb < acc.1 then (f nb, some nb) else acc)
          (bo, bn)).2 = some x →
      bn = some x ∨ (x ∈ l ∧ f x < bo) := by
  intro l
  induction l with
  | nil => intro bo bn x h; exact Or.inl h
  | cons a t ih =>
    intro bo bn x h
    simp only [List.foldl_cons] at h
    by_cases hc : f a < bo
    · rw [if_pos hc] at h
      rcases ih (f a) (some a) x h with h1 | h2
      · cases h1
        exact Or.inr ⟨List.mem_cons_self a t, hc⟩
      · exact Or.inr ⟨List.mem_cons_of_mem a h2.1, lt_trans h2.2 hc⟩
    · rw [if_neg hc] at h
      rcases ih bo bn x h with h1 | h2
      · exact Or.inl h1
      · exact Or.inr ⟨List.mem_cons_of_mem a h2.1, h2.2⟩

/-- C9: under the BestImprovement rule a local-search step either returns
no neighbor, or returns a generated neighbor whose objective value is
STRICTLY lower than the current solution's. -/
theorem search_step_best_improvement_strict (inst : Instance)
    (cfg : LocalSearchConfig) (current nb : Solution)
    (hstep : cfg.stepFunction = .BestImprovement)
    (h : search_step inst cfg current = some nb) :
    nb ∈ generate_neighbors inst cfg.neighborhood current ∧
    objective_function_value nb < objective_function_value current := by
  obtain ⟨nh, sf, acc, mi, mni, tls⟩ := cfg
  simp only at hstep
  subst hstep
  simp only [search_step] at h
  rcases foldl_best_eq_some objective_function_value _ _ _ _ h with h1 | h2
  · exact absurd h1 (by simp)
  · exact h2

/-- C9 witness: on `curReloc` the best-improvement Relocate step returns
the strictly better neighbor `[[], [1, 3, 2, 4]]`. -/
theorem search_step_best_improvement_witness :
    cfgBestReloc.stepFunction = .BestImprovement ∧
    search_step instReloc cfgBestReloc curReloc =
      some ⟨instReloc, [[], [1, 3, 2, 4]]⟩ ∧
    (⟨instReloc, [[], [1, 3, 2, 4]]⟩ : Solution) ∈
      generate_neighbors instReloc cfgBestReloc.neighborhood curReloc ∧
    objective_function_value ⟨instReloc, [[], [1, 3, 2, 4]]⟩ <
      objective_function_value curReloc :=
  ⟨rfl, search_step_curReloc,
    search_step_best_improvement_strict instReloc cfgBestReloc curReloc
      ⟨instReloc, [[], [1, 3, 2, 4]]⟩ rfl search_step_curReloc⟩

end SCFPDP
